import Mathlib

/-!
Verification development for the motion-aware transform and bounding subsystem
of the embree excerpt: the cubic Bezier basis and curve bounding routines of
kernels/subdiv/bezier_curve.h, and the instance transform, validity and
primitive-reference logic of kernels/common/scene_instance.h.

The C++ code is shallowly embedded.  Float arithmetic is embedded as exact
arithmetic: curve definitions are generic over a linear ordered field (so they
can be instantiated both at the rationals, for concrete evaluation, and at the
reals), and the instance definitions are fixed at the rationals.  SIMD values
(vfloat, vint, vbool, AffineSpace3vf) are embedded lane-wise as functions from
lane indices, and wide operations as the corresponding lane-wise scalar
operations, which is their semantics.
-/

namespace EmbreeModel

/-- Fused multiply-add on scalars, as the embree madd intrinsic: a * b + c. -/
def madd {R : Type} [CommRing R] (a b c : R) : R := a * b + c

/-- Fused multiply-subtract on scalars, as the embree msub intrinsic: a * b - c. -/
def msub {R : Type} [CommRing R] (a b c : R) : R := a * b - c

/-- Four-component vector, embedding both Vec4 weight vectors and the
four-wide Vec3fa vertices (position x,y,z with the radius or an auxiliary
value in w). -/
@[ext]
structure V4 (R : Type) where
  x : R
  y : R
  z : R
  w : R
deriving DecidableEq, Repr

/-- Three-component vector, embedding Vec3fa where only x,y,z matter. -/
@[ext]
structure V3 (R : Type) where
  x : R
  y : R
  z : R
deriving DecidableEq, Repr

namespace V4

/-- Componentwise addition of four-wide vectors. -/
def add {R : Type} [CommRing R] (a b : V4 R) : V4 R := ⟨a.x + b.x, a.y + b.y, a.z + b.z, a.w + b.w⟩

/-- Componentwise subtraction of four-wide vectors. -/
def sub {R : Type} [CommRing R] (a b : V4 R) : V4 R := ⟨a.x - b.x, a.y - b.y, a.z - b.z, a.w - b.w⟩

/-- Scalar times vector, four-wide. -/
def smul {R : Type} [CommRing R] (s : R) (a : V4 R) : V4 R := ⟨s * a.x, s * a.y, s * a.z, s * a.w⟩

/-- Vector madd with a scalar first argument: s * a + b, four-wide. -/
def vmadd {R : Type} [CommRing R] (s : R) (a b : V4 R) : V4 R := add (smul s a) b

/-- Componentwise minimum, four-wide. -/
def vmin {R : Type} [LinearOrder R] (a b : V4 R) : V4 R := ⟨min a.x b.x, min a.y b.y, min a.z b.z, min a.w b.w⟩

/-- Componentwise maximum, four-wide. -/
def vmax {R : Type} [LinearOrder R] (a b : V4 R) : V4 R := ⟨max a.x b.x, max a.y b.y, max a.z b.z, max a.w b.w⟩

/-- Zero vector. -/
def zero {R : Type} [CommRing R] : V4 R := ⟨0, 0, 0, 0⟩

/-- Componentwise order on four-wide vectors. -/
def vle {R : Type} [LinearOrder R] (a b : V4 R) : Prop :=
  a.x ≤ b.x ∧ a.y ≤ b.y ∧ a.z ≤ b.z ∧ a.w ≤ b.w

end V4

/- The cubic Bernstein basis of bezier_curve.h.  The source is templated over
the scalar type; the embedding is generic over a commutative ring, with the
source locals t1 = u and t0 = 1 - u inlined. -/
namespace BezierBasis

/-- Basis weights B0..B3 at parameter u (BezierBasis::eval). -/
def eval {R : Type} [CommRing R] (u : R) : V4 R :=
  ⟨(1 - u) * (1 - u) * (1 - u),
   3 * u * ((1 - u) * (1 - u)),
   3 * (u * u) * (1 - u),
   u * u * u⟩

/-- First-derivative weights at parameter u (BezierBasis::derivative), already
scaled by 3 as in the source: 3 * (B0, B1, B2, B3) with
B0 = -(t0*t0), B1 = madd(-2, t0*t1, t0*t0), B2 = msub(2, t0*t1, t1*t1),
B3 = t1*t1. -/
def derivative {R : Type} [CommRing R] (u : R) : V4 R :=
  V4.smul 3
    ⟨-((1 - u) * (1 - u)),
     madd (-2) ((1 - u) * u) ((1 - u) * (1 - u)),
     msub 2 ((1 - u) * u) (u * u),
     u * u⟩

/-- Second-derivative weights at parameter u (BezierBasis::derivative2),
already scaled by 6 as in the source: 6 * (t0, madd(-2,t0,t1), madd(-2,t1,t0), t1). -/
def derivative2 {R : Type} [CommRing R] (u : R) : V4 R :=
  V4.smul 6
    ⟨1 - u,
     madd (-2) (1 - u) u,
     madd (-2) u (1 - u),
     u⟩

end BezierBasis

/-- Axis-aligned bounding box with rational or real coordinates (BBox3fa with
finite bounds). -/
@[ext]
structure BBox3 (R : Type) where
  lower : V3 R
  upper : V3 R
deriving DecidableEq, Repr

/-- Enlarge a box by a vector r on all sides (embree enlarge: lower - r, upper + r). -/
def enlarge {R : Type} [CommRing R] (b : BBox3 R) (r : V3 R) : BBox3 R :=
  ⟨⟨b.lower.x - r.x, b.lower.y - r.y, b.lower.z - r.z⟩,
   ⟨b.upper.x + r.x, b.upper.y + r.y, b.upper.z + r.z⟩⟩

/-- Componentwise minimum of three-wide vectors. -/
def vmin3 {R : Type} [LinearOrder R] (a b : V3 R) : V3 R := ⟨min a.x b.x, min a.y b.y, min a.z b.z⟩

/-- Componentwise maximum of three-wide vectors. -/
def vmax3 {R : Type} [LinearOrder R] (a b : V3 R) : V3 R := ⟨max a.x b.x, max a.y b.y, max a.z b.z⟩

/-- The x,y,z part of a four-wide vertex. -/
def xyz {R : Type} (v : V4 R) : V3 R := ⟨v.x, v.y, v.z⟩

/-- Broadcast a scalar to a three-wide vector (Vec3fa of a single float). -/
def const3 {R : Type} (r : R) : V3 R := ⟨r, r, r⟩

/-- Cubic Bezier curve of four control points (BezierCurveT with Vertex a
four-wide vector: position plus radius in w). -/
structure BezierCurveT (R : Type) where
  v0 : V4 R
  v1 : V4 R
  v2 : V4 R
  v3 : V4 R
deriving DecidableEq, Repr

namespace BezierCurveT

variable {R : Type}

/-- Dot-product of a four-weight row with the four control points, in the madd
association of the source: madd(b.x,v0, madd(b.y,v1, madd(b.z,v2, b.w*v3))). -/
def weightDot [CommRing R] (b : V4 R) (c : BezierCurveT R) : V4 R :=
  V4.vmadd b.x c.v0 (V4.vmadd b.y c.v1 (V4.vmadd b.z c.v2 (V4.smul b.w c.v3)))

/-- Point on the curve at parameter t (BezierCurveT::eval). -/
def eval [CommRing R] (c : BezierCurveT R) (t : R) : V4 R :=
  weightDot (BezierBasis.eval t) c

/-- First derivative at parameter t (BezierCurveT::eval_du). -/
def eval_du [CommRing R] (c : BezierCurveT R) (t : R) : V4 R :=
  weightDot (BezierBasis.derivative t) c

/-- Row of the precomputed basis table bezier_basis0 for a tessellation
granularity and sample offset.  Modelled from the spec: the table filling code
is outside this excerpt, and the spec states the tables hold the basis weights
evaluated at offset/size for every pair with offset less or equal size (table 0
has phase shift zero). -/
def basisRow0 [Field R] (size ofs : ℕ) : V4 R :=
  BezierBasis.eval ((ofs : R) / (size : R))

/-- Row of the precomputed derivative table of bezier_basis0.  Modelled from
the spec: the derivative weights evaluated at offset/size. -/
def derivRow0 [Field R] (size ofs : ℕ) : V4 R :=
  BezierBasis.derivative ((ofs : R) / (size : R))

/-- Table-driven point evaluation (BezierCurveT::eval0 for one lane at offset
ofs and granularity size): the four control points dotted against the
precomputed basis row. -/
def eval0 [Field R] (c : BezierCurveT R) (ofs size : ℕ) : V4 R :=
  weightDot (basisRow0 size ofs) c

/-- Table-driven derivative evaluation (BezierCurveT::derivative0 for one lane). -/
def derivative0 [Field R] (c : BezierCurveT R) (ofs size : ℕ) : V4 R :=
  weightDot (derivRow0 size ofs) c

/- accurateBounds of bezier_curve.h: N = 7, scale = 1/(3*(N-1)); for each
sample offset i in 0..N it takes the table-driven point p and derivative dp at
i/N, the backward extrapolation pm = p - scale*dp (with dp zeroed at i = 0)
and the forward extrapolation pp = p + scale*dp (with dp zeroed at i = N),
accumulates the componentwise minimum pl and maximum pu over all these
points, and returns the box of the x,y,z parts enlarged isotropically by
max(|pl.w|, |pu.w|).  The SIMD loop with its masked lanes and cross-lane
reductions is embedded lane-wise as a fold over the sample offsets; the
positive and negative infinity initial accumulators are embedded by starting
the fold from the contribution of sample 0 (min and max are idempotent, the
duplicated first contribution in the fold below is harmless). -/

/-- Sampled point p of accurateBounds at offset i (granularity 7). -/
def accP [Field R] (c : BezierCurveT R) (i : ℕ) : V4 R := eval0 c i 7

/-- Sampled derivative dp of accurateBounds at offset i (granularity 7). -/
def accDp [Field R] (c : BezierCurveT R) (i : ℕ) : V4 R := derivative0 c i 7

/-- The scale 1/(3*(N-1)) of accurateBounds with N = 7. -/
def accScale [Field R] : R := 1 / (3 * (7 - 1))

/-- Backward tangent-extrapolated point pm = p - scale * select(i = 0, 0, dp). -/
def accPm [Field R] (c : BezierCurveT R) (i : ℕ) : V4 R :=
  V4.sub (accP c i) (V4.smul accScale (if i ≠ 0 then accDp c i else V4.zero))

/-- Forward tangent-extrapolated point pp = p + scale * select(i = N, 0, dp). -/
def accPp [Field R] (c : BezierCurveT R) (i : ℕ) : V4 R :=
  V4.add (accP c i) (V4.smul accScale (if i ≠ 7 then accDp c i else V4.zero))

/-- Lower accumulator contribution of one sample: min(p, pm, pp). -/
def accLo [LinearOrderedField R] (c : BezierCurveT R) (i : ℕ) : V4 R :=
  V4.vmin (V4.vmin (accP c i) (accPm c i)) (accPp c i)

/-- Upper accumulator contribution of one sample: max(p, pm, pp). -/
def accHi [LinearOrderedField R] (c : BezierCurveT R) (i : ℕ) : V4 R :=
  V4.vmax (V4.vmax (accP c i) (accPm c i)) (accPp c i)

/-- The accumulated (pl, pu) pair of accurateBounds over all sample offsets
0..7. -/
def accAcc [LinearOrderedField R] (c : BezierCurveT R) : V4 R × V4 R :=
  (List.range 8).foldl
    (fun acc i => (V4.vmin acc.1 (accLo c i), V4.vmax acc.2 (accHi c i)))
    (accLo c 0, accHi c 0)

/-- Tight derivative-based bound of the curve (BezierCurveT::accurateBounds). -/
def accurateBounds [LinearOrderedField R] (c : BezierCurveT R) : BBox3 R :=
  let pl := (accAcc c).1
  let pu := (accAcc c).2
  enlarge ⟨⟨pl.x, pl.y, pl.z⟩, ⟨pu.x, pu.y, pu.z⟩⟩
    (const3 (max |pl.w| |pu.w|))

/- tessellatedBounds of bezier_curve.h.  The fast path for N = 4 evaluates the
single four-lane batch eval0(0,4) at offsets 0..3, reduces min and max over
the lanes, unions the final control point v3 and enlarges by the maximum of
the absolute sampled radii and |v3.w|.  The general path loops over offsets
i < N with masked lanes accumulating (pl, pu, ru); it is embedded lane-wise
as a fold over offsets 0..N-1, with the infinite initial position
accumulators embedded by starting from the contribution of offset 0 (the
radius accumulator really starts at 0, as in the source). -/

/-- One step of the general tessellatedBounds loop: extend the position
accumulators by the sample at offset i and the radius accumulator by its
absolute w. -/
def tessStep [LinearOrderedField R] (c : BezierCurveT R) (N : ℕ)
    (acc : V3 R × V3 R × R) (i : ℕ) : V3 R × V3 R × R :=
  (vmin3 acc.1 (xyz (eval0 c i N)), vmax3 acc.2.1 (xyz (eval0 c i N)),
   max acc.2.2 |(eval0 c i N).w|)

/-- The general (non-fast-path) branch of tessellatedBounds for N segments.
For N = 0 the loop body never runs and the infinite initial accumulators
collapse onto v3, giving the box of v3 alone. -/
def tessGeneral [LinearOrderedField R] (c : BezierCurveT R) (N : ℕ) : BBox3 R :=
  if N = 0 then
    enlarge ⟨xyz c.v3, xyz c.v3⟩ (const3 |c.v3.w|)
  else
    let acc := (List.range N).foldl (tessStep c N) (xyz (eval0 c 0 N), xyz (eval0 c 0 N), (0 : R))
    enlarge ⟨vmin3 acc.1 (xyz c.v3), vmax3 acc.2.1 (xyz c.v3)⟩
      (const3 (max acc.2.2 |c.v3.w|))

/-- The fast path of tessellatedBounds for exactly 4 segments: one batched
four-lane table evaluation at offsets 0..3. -/
def tessFast [LinearOrderedField R] (c : BezierCurveT R) : BBox3 R :=
  let p0 := eval0 c 0 4
  let p1 := eval0 c 1 4
  let p2 := eval0 c 2 4
  let p3 := eval0 c 3 4
  let lower : V3 R := ⟨min (min p0.x p1.x) (min p2.x p3.x),
                       min (min p0.y p1.y) (min p2.y p3.y),
                       min (min p0.z p1.z) (min p2.z p3.z)⟩
  let upper : V3 R := ⟨max (max p0.x p1.x) (max p2.x p3.x),
                       max (max p0.y p1.y) (max p2.y p3.y),
                       max (max p0.z p1.z) (max p2.z p3.z)⟩
  let upper_r := max (max |p0.w| |p1.w|) (max |p2.w| |p3.w|)
  enlarge ⟨vmin3 lower (xyz c.v3), vmax3 upper (xyz c.v3)⟩
    (const3 (max upper_r |c.v3.w|))

/-- Polyline-tessellation bound (BezierCurveT::tessellatedBounds): the fast
path for N = 4, the general loop otherwise. -/
def tessellatedBounds [LinearOrderedField R] (c : BezierCurveT R) (N : ℕ) : BBox3 R :=
  if N = 4 then tessFast c else tessGeneral c N

end BezierCurveT

set_option maxHeartbeats 1600000 in
/-- Helper: the general loop path of tessellatedBounds evaluated at N = 4
yields the same box as the special-cased fast path. -/
theorem tessGeneral_eq_tessFast {R : Type}
    [LinearOrderedField R] (c : BezierCurveT R) :
    BezierCurveT.tessGeneral c 4 = BezierCurveT.tessFast c := by
  have h4 : (4 : ℕ) ≠ 0 := by decide
  simp only [BezierCurveT.tessGeneral,
    if_neg h4, if_true, eq_self_iff_true, show List.range 4 = [0, 1, 2, 3] from rfl,
    List.foldl_cons, List.foldl_nil, BezierCurveT.tessStep, BezierCurveT.tessFast,
    enlarge, vmin3, vmax3, xyz, const3]
  simp [BBox3.mk.injEq, V3.mk.injEq, min_self, max_self, min_assoc, max_assoc,
    min_comm, max_comm, min_left_comm, max_left_comm, abs_nonneg, max_eq_right]

/-- Helper: tessellatedBounds always agrees with the general loop path. -/
theorem tessellatedBounds_eq_general {R : Type}
    [LinearOrderedField R] (c : BezierCurveT R) (N : ℕ) :
    BezierCurveT.tessellatedBounds c N = BezierCurveT.tessGeneral c N := by
  by_cases hN : N = 4
  · subst hN
    rw [BezierCurveT.tessellatedBounds, if_pos rfl, tessGeneral_eq_tessFast]
  · rw [BezierCurveT.tessellatedBounds, if_neg hN]

/-- C10: for every curve, the special-cased fast path of tessellatedBounds for
N = 4 (one batched four-lane table evaluation at offsets 0..3, union with v3,
enlarge by the maximum absolute sampled radius including |v3.w|) returns the
same box as the general loop path evaluated at N = 4. -/
theorem claim10_tessellated_fast_path_equals_general {R : Type}
    [LinearOrderedField R] (c : BezierCurveT R) :
    BezierCurveT.tessGeneral c 4 = BezierCurveT.tessellatedBounds c 4 :=
  (tessellatedBounds_eq_general c 4).symm

/-- Helper: componentwise order on three-wide vectors. -/
def vle3 {R : Type} [LinearOrder R] (a b : V3 R) : Prop :=
  a.x ≤ b.x ∧ a.y ≤ b.y ∧ a.z ≤ b.z

/-- Helper: the componentwise order is reflexive. -/
theorem vle_refl {R : Type} [LinearOrder R] (a : V4 R) : V4.vle a a :=
  ⟨le_refl _, le_refl _, le_refl _, le_refl _⟩

/-- Helper: the componentwise order is transitive. -/
theorem vle_trans {R : Type} [LinearOrder R] {a b c : V4 R}
    (h1 : V4.vle a b) (h2 : V4.vle b c) : V4.vle a c :=
  ⟨le_trans h1.1 h2.1, le_trans h1.2.1 h2.2.1, le_trans h1.2.2.1 h2.2.2.1,
   le_trans h1.2.2.2 h2.2.2.2⟩

/-- Helper: componentwise minimum is below its left argument. -/
theorem vmin_le_left {R : Type} [LinearOrder R] (a b : V4 R) :
    V4.vle (V4.vmin a b) a :=
  ⟨min_le_left _ _, min_le_left _ _, min_le_left _ _, min_le_left _ _⟩

/-- Helper: componentwise minimum is below its right argument. -/
theorem vmin_le_right {R : Type} [LinearOrder R] (a b : V4 R) :
    V4.vle (V4.vmin a b) b :=
  ⟨min_le_right _ _, min_le_right _ _, min_le_right _ _, min_le_right _ _⟩

/-- Helper: componentwise maximum is above its left argument. -/
theorem le_vmax_left {R : Type} [LinearOrder R] (a b : V4 R) :
    V4.vle a (V4.vmax a b) :=
  ⟨le_max_left _ _, le_max_left _ _, le_max_left _ _, le_max_left _ _⟩

/-- Helper: componentwise maximum is above its right argument. -/
theorem le_vmax_right {R : Type} [LinearOrder R] (a b : V4 R) :
    V4.vle b (V4.vmax a b) :=
  ⟨le_max_right _ _, le_max_right _ _, le_max_right _ _, le_max_right _ _⟩

/-- Helper: the accurateBounds accumulator fold only shrinks the lower
accumulator and grows the upper one, and bounds every visited sample
contribution. -/
theorem accFold_bounds {R : Type} [LinearOrderedField R] (c : BezierCurveT R) :
    ∀ (l : List ℕ) (init : V4 R × V4 R),
      (V4.vle (l.foldl (fun acc i =>
          (V4.vmin acc.1 (BezierCurveT.accLo c i),
           V4.vmax acc.2 (BezierCurveT.accHi c i))) init).1 init.1
        ∧ V4.vle init.2 (l.foldl (fun acc i =>
          (V4.vmin acc.1 (BezierCurveT.accLo c i),
           V4.vmax acc.2 (BezierCurveT.accHi c i))) init).2)
      ∧ ∀ i ∈ l,
          V4.vle (l.foldl (fun acc i =>
            (V4.vmin acc.1 (BezierCurveT.accLo c i),
             V4.vmax acc.2 (BezierCurveT.accHi c i))) init).1
            (BezierCurveT.accLo c i)
          ∧ V4.vle (BezierCurveT.accHi c i)
              (l.foldl (fun acc i =>
                (V4.vmin acc.1 (BezierCurveT.accLo c i),
                 V4.vmax acc.2 (BezierCurveT.accHi c i))) init).2 := by
  intro l
  induction l with
  | nil =>
      intro init
      exact ⟨⟨vle_refl _, vle_refl _⟩, fun i hi => absurd hi (List.not_mem_nil i)⟩
  | cons a tl ih =>
      intro init
      simp only [List.foldl_cons]
      rcases ih (V4.vmin init.1 (BezierCurveT.accLo c a),
        V4.vmax init.2 (BezierCurveT.accHi c a)) with ⟨⟨hlo, hhi⟩, hmem⟩
      refine ⟨⟨vle_trans hlo (vmin_le_left _ _), vle_trans (le_vmax_left _ _) hhi⟩, ?_⟩
      intro i hi
      rcases List.mem_cons.mp hi with heq | htl
      · subst heq
        exact ⟨vle_trans hlo (vmin_le_right _ _), vle_trans (le_vmax_right _ _) hhi⟩
      · exact hmem i htl

/-- Helper: the accumulated pair of accurateBounds bounds the p, pm and pp
contributions of every sample offset up to 7. -/
theorem accAcc_bounds {R : Type} [LinearOrderedField R] (c : BezierCurveT R)
    (i : ℕ) (hi : i ≤ 7) :
    (V4.vle (BezierCurveT.accAcc c).1 (BezierCurveT.accP c i)
      ∧ V4.vle (BezierCurveT.accAcc c).1 (BezierCurveT.accPm c i)
      ∧ V4.vle (BezierCurveT.accAcc c).1 (BezierCurveT.accPp c i))
    ∧ (V4.vle (BezierCurveT.accP c i) (BezierCurveT.accAcc c).2
      ∧ V4.vle (BezierCurveT.accPm c i) (BezierCurveT.accAcc c).2
      ∧ V4.vle (BezierCurveT.accPp c i) (BezierCurveT.accAcc c).2) := by
  have hfold := accFold_bounds c (List.range 8)
    (BezierCurveT.accLo c 0, BezierCurveT.accHi c 0)
  have hiMem : i ∈ List.range 8 := List.mem_range.mpr (by omega)
  rcases hfold with ⟨_, hmem⟩
  rcases hmem i hiMem with ⟨hlo, hhi⟩
  have hlo1 : V4.vle (BezierCurveT.accAcc c).1 (BezierCurveT.accLo c i) := hlo
  have hhi1 : V4.vle (BezierCurveT.accHi c i) (BezierCurveT.accAcc c).2 := hhi
  refine ⟨⟨?_, ?_, ?_⟩, ?_, ?_, ?_⟩
  · exact vle_trans hlo1 (vle_trans (vmin_le_left _ _) (vmin_le_left _ _))
  · exact vle_trans hlo1 (vle_trans (vmin_le_left _ _) (vmin_le_right _ _))
  · exact vle_trans hlo1 (vmin_le_right _ _)
  · exact vle_trans (vle_trans (le_vmax_left _ _) (le_vmax_left _ _)) hhi1
  · exact vle_trans (vle_trans (le_vmax_right _ _) (le_vmax_left _ _)) hhi1
  · exact vle_trans (le_vmax_right _ _) hhi1

/-- Helper: containment of the axis-aligned ball of a vertex (center x,y,z,
radius the absolute w) in a box.  The Euclidean ball of the same radius is a
subset of this axis-aligned ball. -/
def ballIn {R : Type} [LinearOrderedField R] (b : BBox3 R) (p : V4 R) : Prop :=
  (b.lower.x ≤ p.x - |p.w| ∧ p.x + |p.w| ≤ b.upper.x)
  ∧ (b.lower.y ≤ p.y - |p.w| ∧ p.y + |p.w| ≤ b.upper.y)
  ∧ (b.lower.z ≤ p.z - |p.w| ∧ p.z + |p.w| ≤ b.upper.z)

/-- Helper: the general tessellation fold only shrinks the position lower
accumulator, grows the position upper accumulator, grows the radius
accumulator, and bounds every visited sample. -/
theorem tessFold_bounds {R : Type} [LinearOrderedField R] (c : BezierCurveT R)
    (N : ℕ) :
    ∀ (l : List ℕ) (init : V3 R × V3 R × R),
      (vle3 (l.foldl (BezierCurveT.tessStep c N) init).1 init.1
        ∧ vle3 init.2.1 (l.foldl (BezierCurveT.tessStep c N) init).2.1
        ∧ init.2.2 ≤ (l.foldl (BezierCurveT.tessStep c N) init).2.2)
      ∧ ∀ i ∈ l,
          vle3 (l.foldl (BezierCurveT.tessStep c N) init).1
              (xyz (BezierCurveT.eval0 c i N))
          ∧ vle3 (xyz (BezierCurveT.eval0 c i N))
              (l.foldl (BezierCurveT.tessStep c N) init).2.1
          ∧ |(BezierCurveT.eval0 c i N).w|
              ≤ (l.foldl (BezierCurveT.tessStep c N) init).2.2 := by
  intro l
  induction l with
  | nil =>
      intro init
      refine ⟨⟨⟨le_refl _, le_refl _, le_refl _⟩,
        ⟨le_refl _, le_refl _, le_refl _⟩, le_refl _⟩,
        fun i hi => absurd hi (List.not_mem_nil i)⟩
  | cons a tl ih =>
      intro init
      simp only [List.foldl_cons]
      rcases ih (BezierCurveT.tessStep c N init a) with ⟨⟨hlo, hhi, hru⟩, hmem⟩
      refine ⟨⟨?_, ?_, ?_⟩, ?_⟩
      · exact ⟨le_trans hlo.1 (min_le_left _ _), le_trans hlo.2.1 (min_le_left _ _),
          le_trans hlo.2.2 (min_le_left _ _)⟩
      · exact ⟨le_trans (le_max_left _ _) hhi.1, le_trans (le_max_left _ _) hhi.2.1,
          le_trans (le_max_left _ _) hhi.2.2⟩
      · exact le_trans (le_max_left _ _) hru
      · intro i hi
        rcases List.mem_cons.mp hi with heq | htl
        · subst heq
          refine ⟨?_, ?_, ?_⟩
          · exact ⟨le_trans hlo.1 (min_le_right _ _),
              le_trans hlo.2.1 (min_le_right _ _),
              le_trans hlo.2.2 (min_le_right _ _)⟩
          · exact ⟨le_trans (le_max_right _ _) hhi.1,
              le_trans (le_max_right _ _) hhi.2.1,
              le_trans (le_max_right _ _) hhi.2.2⟩
          · exact le_trans (le_max_right _ _) hru
        · exact hmem i htl

/-- Helper: the general tessellation path contains the ball of every sampled
point with index below N, and the ball of the final control point v3. -/
theorem tessGeneral_contains {R : Type} [LinearOrderedField R]
    (c : BezierCurveT R) (N : ℕ) :
    (∀ i : ℕ, i < N → ballIn (BezierCurveT.tessGeneral c N) (BezierCurveT.eval0 c i N))
    ∧ ballIn (BezierCurveT.tessGeneral c N) c.v3 := by
  by_cases hN : N = 0
  · subst hN
    constructor
    · intro i hi
      exact absurd hi (by omega)
    · unfold BezierCurveT.tessGeneral
      rw [if_pos rfl]
      simp only [enlarge, const3, xyz, ballIn]
      refine ⟨⟨?_, ?_⟩, ⟨?_, ?_⟩, ⟨?_, ?_⟩⟩ <;> simp
  · have hfold := tessFold_bounds c N (List.range N)
      (xyz (BezierCurveT.eval0 c 0 N), xyz (BezierCurveT.eval0 c 0 N), (0 : R))
    rcases hfold with ⟨_, hmem⟩
    have hbox : BezierCurveT.tessGeneral c N =
        enlarge ⟨vmin3 ((List.range N).foldl (BezierCurveT.tessStep c N)
            (xyz (BezierCurveT.eval0 c 0 N), xyz (BezierCurveT.eval0 c 0 N), (0 : R))).1
            (xyz c.v3),
          vmax3 ((List.range N).foldl (BezierCurveT.tessStep c N)
            (xyz (BezierCurveT.eval0 c 0 N), xyz (BezierCurveT.eval0 c 0 N), (0 : R))).2.1
            (xyz c.v3)⟩
          (const3 (max ((List.range N).foldl (BezierCurveT.tessStep c N)
            (xyz (BezierCurveT.eval0 c 0 N), xyz (BezierCurveT.eval0 c 0 N), (0 : R))).2.2
            |c.v3.w|)) := by
      unfold BezierCurveT.tessGeneral
      rw [if_neg hN]
    constructor
    · intro i hi
      rcases hmem i (List.mem_range.mpr hi) with ⟨hlo, hhi, hru⟩
      rw [hbox]
      simp only [ballIn, enlarge, vmin3, vmax3, const3, xyz]
      have hrmax : |(BezierCurveT.eval0 c i N).w|
          ≤ max ((List.range N).foldl (BezierCurveT.tessStep c N)
              (xyz (BezierCurveT.eval0 c 0 N), xyz (BezierCurveT.eval0 c 0 N), (0 : R))).2.2
            |c.v3.w| := le_trans hru (le_max_left _ _)
      rcases hlo with ⟨hlx, hly, hlz⟩
      rcases hhi with ⟨hhx, hhy, hhz⟩
      simp only [xyz] at hlx hly hlz hhx hhy hhz
      refine ⟨⟨?_, ?_⟩, ⟨?_, ?_⟩, ⟨?_, ?_⟩⟩
      · exact sub_le_sub (le_trans (min_le_left _ _) hlx) hrmax
      · exact add_le_add (le_trans hhx (le_max_left _ _)) hrmax
      · exact sub_le_sub (le_trans (min_le_left _ _) hly) hrmax
      · exact add_le_add (le_trans hhy (le_max_left _ _)) hrmax
      · exact sub_le_sub (le_trans (min_le_left _ _) hlz) hrmax
      · exact add_le_add (le_trans hhz (le_max_left _ _)) hrmax
    · rw [hbox]
      simp only [ballIn, enlarge, vmin3, vmax3, const3, xyz]
      have hrmax : |c.v3.w|
          ≤ max ((List.range N).foldl (BezierCurveT.tessStep c N)
              (xyz (BezierCurveT.eval0 c 0 N), xyz (BezierCurveT.eval0 c 0 N), (0 : R))).2.2
            |c.v3.w| := le_max_right _ _
      refine ⟨⟨?_, ?_⟩, ⟨?_, ?_⟩, ⟨?_, ?_⟩⟩
      · exact sub_le_sub (min_le_right _ _) hrmax
      · exact add_le_add (le_max_right _ _) hrmax
      · exact sub_le_sub (min_le_right _ _) hrmax
      · exact add_le_add (le_max_right _ _) hrmax
      · exact sub_le_sub (min_le_right _ _) hrmax
      · exact add_le_add (le_max_right _ _) hrmax

/-- Rational zero vertex used by the concrete example curves. -/
def qZero4 : V4 ℚ := ⟨0, 0, 0, 0⟩

/-- Rational unit-x vertex used by the concrete example curves. -/
def qUnitX : V4 ℚ := ⟨1, 0, 0, 0⟩

/-- Concrete curve bulging between tessellation samples: control points
(0,0,0), (1,0,0), (0,0,0), (0,0,0) with zero radii; its x component is
3t(1-t)^2 with maximum 4/9 at t = 1/3, strictly above every sample of
tessellatedBounds 4. -/
def curveBulge : BezierCurveT ℚ := ⟨qZero4, qUnitX, qZero4, qZero4⟩

/-- Concrete curve whose interior control points stick far out of both
bounding boxes: (0,0,0), (1,0,0), (-1,0,0), (0,0,0) with zero radii. -/
def curveSpike : BezierCurveT ℚ := ⟨qZero4, qUnitX, ⟨-1, 0, 0, 0⟩, qZero4⟩

/-- Concrete symmetric arch: (0,0,0), (1,0,0), (1,0,0), (0,0,0) with zero
radii; its x component is 3t(1-t), maximal at the midpoint t = 1/2, which an
odd tessellation count never samples. -/
def curveArch : BezierCurveT ℚ := ⟨qZero4, qUnitX, qUnitX, qZero4⟩

/-- Counterexample to C3 as stated: tessellatedBounds 4 of curveBulge does not
contain the curve point at t = 1/3 (a ball of radius zero around it), since
the box upper x bound is 27/64 while the curve reaches 4/9 there; so
tessellatedBounds is not a superset of the true swept volume. -/
theorem claim3_counterexample :
    (BezierCurveT.tessellatedBounds curveBulge 4).upper.x
      < (BezierCurveT.eval curveBulge ((1 : ℚ)/3)).x := by
  norm_num [BezierCurveT.tessellatedBounds, BezierCurveT.tessFast,
    BezierCurveT.eval, BezierCurveT.eval0, BezierCurveT.weightDot,
    BezierCurveT.basisRow0, BezierBasis.eval, V4.vmadd, V4.add, V4.smul,
    vmin3, vmax3, xyz, const3, enlarge, curveBulge, qZero4, qUnitX,
    min_def, max_def, abs]

set_option maxHeartbeats 1600000 in
/-- Counterexample to C4 as stated: the interior control point v1 of
curveSpike lies outside both tessellatedBounds 4 and accurateBounds, and the
curve midpoint eval(1/2) of curveArch lies outside tessellatedBounds 3; so
neither bound contains all four control points, and tessellatedBounds with an
odd segment count need not contain the midpoint. -/
theorem claim4_counterexample :
    (BezierCurveT.tessellatedBounds curveSpike 4).upper.x < curveSpike.v1.x
    ∧ (BezierCurveT.accurateBounds curveSpike).upper.x < curveSpike.v1.x
    ∧ (BezierCurveT.tessellatedBounds curveArch 3).upper.x
        < (BezierCurveT.eval curveArch ((1 : ℚ)/2)).x := by
  refine ⟨?_, ?_, ?_⟩
  · norm_num [BezierCurveT.tessellatedBounds, BezierCurveT.tessFast,
      BezierCurveT.eval0, BezierCurveT.weightDot, BezierCurveT.basisRow0,
      BezierBasis.eval, V4.vmadd, V4.add, V4.smul, vmin3, vmax3, xyz, const3,
      enlarge, curveSpike, qZero4, qUnitX, min_def, max_def, abs]
  · norm_num [BezierCurveT.accurateBounds, BezierCurveT.accAcc, List.range_succ,
      BezierCurveT.accLo, BezierCurveT.accHi, BezierCurveT.accP,
      BezierCurveT.accPm, BezierCurveT.accPp, BezierCurveT.accDp,
      BezierCurveT.accScale, BezierCurveT.eval0, BezierCurveT.derivative0,
      BezierCurveT.weightDot, BezierCurveT.basisRow0, BezierCurveT.derivRow0,
      BezierBasis.eval, BezierBasis.derivative, madd, msub, V4.vmadd, V4.add,
      V4.sub, V4.smul, V4.zero, V4.vmin, V4.vmax, vmin3, vmax3, xyz, const3,
      enlarge, curveSpike, qZero4, qUnitX, min_def, max_def, abs]
  · norm_num [BezierCurveT.tessellatedBounds, BezierCurveT.tessGeneral,
      BezierCurveT.tessStep, BezierCurveT.eval, BezierCurveT.eval0,
      BezierCurveT.weightDot, BezierCurveT.basisRow0, BezierBasis.eval,
      V4.vmadd, V4.add, V4.smul, List.range_succ, vmin3, vmax3, xyz, const3,
      enlarge, curveArch, qZero4, qUnitX, min_def, max_def, abs]

/-- Control points of the curve restricted to [a, a+h], reparametrized to the
unit interval: the classical cubic subdivision control points built from the
endpoint values and endpoint derivatives. -/
def subCurve {R : Type} [LinearOrderedField R] (c : BezierCurveT R) (a h : R) : BezierCurveT R :=
  ⟨BezierCurveT.eval c a,
   V4.add (BezierCurveT.eval c a) (V4.smul (h/3) (BezierCurveT.eval_du c a)),
   V4.sub (BezierCurveT.eval c (a+h)) (V4.smul (h/3) (BezierCurveT.eval_du c (a+h))),
   BezierCurveT.eval c (a+h)⟩

set_option maxHeartbeats 3200000 in
theorem eval_subCurve {R : Type} [LinearOrderedField R] (c : BezierCurveT R) (a h s : R) :
    BezierCurveT.eval (subCurve c a h) s = BezierCurveT.eval c (a + s * h) := by
  have h3 : (3 : R) ≠ 0 := by norm_num
  refine V4.ext ?_ ?_ ?_ ?_ <;>
    (simp only [BezierCurveT.eval, BezierCurveT.weightDot, subCurve, BezierCurveT.eval_du,
      BezierBasis.eval, BezierBasis.derivative, madd, msub, V4.vmadd, V4.add,
      V4.sub, V4.smul];
     field_simp;
     ring)

/-- Helper: the accurateBounds table sample p at offset j is the curve point
at j/7. -/
theorem accP_eval {R : Type} [LinearOrderedField R] (c : BezierCurveT R) (j : ℕ) :
    BezierCurveT.accP c j = BezierCurveT.eval c ((j : R) / 7) := by
  simp [BezierCurveT.accP, BezierCurveT.eval0, BezierCurveT.basisRow0,
    BezierCurveT.eval, Nat.cast_ofNat]

/-- Helper: the accurateBounds table derivative dp at offset j is the curve
derivative at j/7. -/
theorem accDp_eval {R : Type} [LinearOrderedField R] (c : BezierCurveT R) (j : ℕ) :
    BezierCurveT.accDp c j = BezierCurveT.eval_du c ((j : R) / 7) := by
  simp [BezierCurveT.accDp, BezierCurveT.derivative0, BezierCurveT.derivRow0,
    BezierCurveT.eval_du, Nat.cast_ofNat]

/-- Helper: the sample at offset j+1 is the curve point at j/7 + 1/7. -/
theorem accP_succ_eval {R : Type} [LinearOrderedField R] (c : BezierCurveT R) (j : ℕ) :
    BezierCurveT.accP c (j + 1) = BezierCurveT.eval c ((j : R) / 7 + 1 / 7) := by
  rw [accP_eval]
  congr 1
  push_cast
  ring

/-- Helper: the derivative sample at offset j+1 is the curve derivative at
j/7 + 1/7. -/
theorem accDp_succ_eval {R : Type} [LinearOrderedField R] (c : BezierCurveT R) (j : ℕ) :
    BezierCurveT.accDp c (j + 1) = BezierCurveT.eval_du c ((j : R) / 7 + 1 / 7) := by
  rw [accDp_eval]
  congr 1
  push_cast
  ring

/-- Helper: the second subdivision control point is a convex combination of
the sampled point p and the forward extrapolation pp of its offset (the
source over-extrapolates by 1/18 where the exact sub-segment control point
needs 1/21). -/
theorem subCurve_v1_convex {R : Type} [LinearOrderedField R] (c : BezierCurveT R)
    (j : ℕ) (hj : j ≤ 6) :
    (subCurve c ((j : R) / 7) (1 / 7)).v1
      = V4.add (V4.smul (1/7) (BezierCurveT.accP c j))
          (V4.smul (6/7) (BezierCurveT.accPp c j)) := by
  have hj7 : j ≠ 7 := by omega
  rw [show (subCurve c ((j : R) / 7) (1 / 7)).v1
      = V4.add (BezierCurveT.eval c ((j : R)/7))
          (V4.smul ((1/7)/3) (BezierCurveT.eval_du c ((j : R)/7))) from rfl]
  simp only [BezierCurveT.accPp, if_pos hj7, accP_eval, accDp_eval,
    BezierCurveT.accScale]
  refine V4.ext ?_ ?_ ?_ ?_ <;>
    (simp only [V4.add, V4.smul]; ring)

/-- Helper: the third subdivision control point is a convex combination of
the sampled point p and the backward extrapolation pm of the next offset. -/
theorem subCurve_v2_convex {R : Type} [LinearOrderedField R] (c : BezierCurveT R)
    (j : ℕ) :
    (subCurve c ((j : R) / 7) (1 / 7)).v2
      = V4.add (V4.smul (1/7) (BezierCurveT.accP c (j+1)))
          (V4.smul (6/7) (BezierCurveT.accPm c (j+1))) := by
  have hj0 : j + 1 ≠ 0 := by omega
  rw [show (subCurve c ((j : R) / 7) (1 / 7)).v2
      = V4.sub (BezierCurveT.eval c ((j : R)/7 + 1/7))
          (V4.smul ((1/7)/3) (BezierCurveT.eval_du c ((j : R)/7 + 1/7))) from rfl]
  simp only [BezierCurveT.accPm, if_pos hj0, accP_succ_eval, accDp_succ_eval,
    BezierCurveT.accScale]
  refine V4.ext ?_ ?_ ?_ ?_ <;>
    (simp only [V4.add, V4.sub, V4.smul]; ring)

/-- Helper: every parameter of the unit interval lies in one of the seven
sample sub-segments of accurateBounds. -/
theorem exists_seg {R : Type} [LinearOrderedField R] (t : R)
    (h0 : 0 ≤ t) (h1 : t ≤ 1) :
    ∃ j : ℕ, j ≤ 6 ∧ (j : R) / 7 ≤ t ∧ t ≤ ((j : R) + 1) / 7 := by
  rcases le_or_lt t (1/7) with h | h
  · exact ⟨0, by omega, by simpa using h0, by push_cast; linarith⟩
  rcases le_or_lt t (2/7) with h2 | h2
  · exact ⟨1, by omega, by push_cast; linarith, by push_cast; linarith⟩
  rcases le_or_lt t (3/7) with h3 | h3
  · exact ⟨2, by omega, by push_cast; linarith, by push_cast; linarith⟩
  rcases le_or_lt t (4/7) with h4 | h4
  · exact ⟨3, by omega, by push_cast; linarith, by push_cast; linarith⟩
  rcases le_or_lt t (5/7) with h5 | h5
  · exact ⟨4, by omega, by push_cast; linarith, by push_cast; linarith⟩
  rcases le_or_lt t (6/7) with h6 | h6
  · exact ⟨5, by omega, by push_cast; linarith, by push_cast; linarith⟩
  · exact ⟨6, by omega, by push_cast; linarith, by push_cast; linarith⟩

/-- Helper: the Bernstein weights are nonnegative on the unit interval. -/
theorem weights_nonneg {R : Type} [LinearOrderedField R] (s : R)
    (h0 : 0 ≤ s) (h1 : s ≤ 1) :
    0 ≤ (BezierBasis.eval s).x ∧ 0 ≤ (BezierBasis.eval s).y
      ∧ 0 ≤ (BezierBasis.eval s).z ∧ 0 ≤ (BezierBasis.eval s).w := by
  have hs : (0 : R) ≤ 1 - s := by linarith
  refine ⟨?_, ?_, ?_, ?_⟩ <;> simp only [BezierBasis.eval]
  · exact mul_nonneg (mul_nonneg hs hs) hs
  · exact mul_nonneg (by linarith) (mul_nonneg hs hs)
  · exact mul_nonneg (by nlinarith) hs
  · exact mul_nonneg (mul_nonneg h0 h0) h0

/-- Helper: the Bernstein weights sum to one. -/
theorem weights_sum {R : Type} [LinearOrderedField R] (s : R) :
    (BezierBasis.eval s).x + (BezierBasis.eval s).y + (BezierBasis.eval s).z
      + (BezierBasis.eval s).w = 1 := by
  simp only [BezierBasis.eval]
  ring

/-- Helper: a convex combination of four scalars stays between any common
lower and upper bound of them. -/
theorem convex_dot_bounds {R : Type} [LinearOrderedField R]
    (b0 b1 b2 b3 q0 q1 q2 q3 L U : R)
    (hb0 : 0 ≤ b0) (hb1 : 0 ≤ b1) (hb2 : 0 ≤ b2) (hb3 : 0 ≤ b3)
    (hsum : b0 + b1 + b2 + b3 = 1)
    (h0L : L ≤ q0) (h0U : q0 ≤ U) (h1L : L ≤ q1) (h1U : q1 ≤ U)
    (h2L : L ≤ q2) (h2U : q2 ≤ U) (h3L : L ≤ q3) (h3U : q3 ≤ U) :
    L ≤ b0 * q0 + (b1 * q1 + (b2 * q2 + b3 * q3))
    ∧ b0 * q0 + (b1 * q1 + (b2 * q2 + b3 * q3)) ≤ U := by
  constructor
  · have hL : (b0 + b1 + b2 + b3) * L = L := by rw [hsum]; ring
    linarith [mul_le_mul_of_nonneg_left h0L hb0, mul_le_mul_of_nonneg_left h1L hb1,
      mul_le_mul_of_nonneg_left h2L hb2, mul_le_mul_of_nonneg_left h3L hb3, hL]
  · have hU : (b0 + b1 + b2 + b3) * U = U := by rw [hsum]; ring
    linarith [mul_le_mul_of_nonneg_left h0U hb0, mul_le_mul_of_nonneg_left h1U hb1,
      mul_le_mul_of_nonneg_left h2U hb2, mul_le_mul_of_nonneg_left h3U hb3, hU]

/-- Helper: a Bernstein-weighted combination of four control points stays
between componentwise bounds of the control points. -/
theorem weightDot_bounds {R : Type} [LinearOrderedField R]
    (s : R) (hs0 : 0 ≤ s) (hs1 : s ≤ 1) (Q : BezierCurveT R) (pl pu : V4 R)
    (h0 : V4.vle pl Q.v0 ∧ V4.vle Q.v0 pu) (h1 : V4.vle pl Q.v1 ∧ V4.vle Q.v1 pu)
    (h2 : V4.vle pl Q.v2 ∧ V4.vle Q.v2 pu) (h3 : V4.vle pl Q.v3 ∧ V4.vle Q.v3 pu) :
    V4.vle pl (BezierCurveT.weightDot (BezierBasis.eval s) Q)
    ∧ V4.vle (BezierCurveT.weightDot (BezierBasis.eval s) Q) pu := by
  rcases weights_nonneg s hs0 hs1 with ⟨hb0, hb1, hb2, hb3⟩
  have hsum := weights_sum s
  have hx := convex_dot_bounds (BezierBasis.eval s).x (BezierBasis.eval s).y
    (BezierBasis.eval s).z (BezierBasis.eval s).w Q.v0.x Q.v1.x Q.v2.x Q.v3.x
    pl.x pu.x hb0 hb1 hb2 hb3 hsum h0.1.1 h0.2.1 h1.1.1 h1.2.1 h2.1.1 h2.2.1
    h3.1.1 h3.2.1
  have hy := convex_dot_bounds (BezierBasis.eval s).x (BezierBasis.eval s).y
    (BezierBasis.eval s).z (BezierBasis.eval s).w Q.v0.y Q.v1.y Q.v2.y Q.v3.y
    pl.y pu.y hb0 hb1 hb2 hb3 hsum h0.1.2.1 h0.2.2.1 h1.1.2.1 h1.2.2.1
    h2.1.2.1 h2.2.2.1 h3.1.2.1 h3.2.2.1
  have hz := convex_dot_bounds (BezierBasis.eval s).x (BezierBasis.eval s).y
    (BezierBasis.eval s).z (BezierBasis.eval s).w Q.v0.z Q.v1.z Q.v2.z Q.v3.z
    pl.z pu.z hb0 hb1 hb2 hb3 hsum h0.1.2.2.1 h0.2.2.2.1 h1.1.2.2.1 h1.2.2.2.1
    h2.1.2.2.1 h2.2.2.2.1 h3.1.2.2.1 h3.2.2.2.1
  have hw := convex_dot_bounds (BezierBasis.eval s).x (BezierBasis.eval s).y
    (BezierBasis.eval s).z (BezierBasis.eval s).w Q.v0.w Q.v1.w Q.v2.w Q.v3.w
    pl.w pu.w hb0 hb1 hb2 hb3 hsum h0.1.2.2.2 h0.2.2.2.2 h1.1.2.2.2 h1.2.2.2.2
    h2.1.2.2.2 h2.2.2.2.2 h3.1.2.2.2 h3.2.2.2.2
  constructor
  · exact ⟨hx.1, hy.1, hz.1, hw.1⟩
  · exact ⟨hx.2, hy.2, hz.2, hw.2⟩

/-- Helper: lower bound of a two-point convex combination with weights 1/7
and 6/7. -/
theorem vle_convex2_lo {R : Type} [LinearOrderedField R] (pl a b : V4 R)
    (ha : V4.vle pl a) (hb : V4.vle pl b) :
    V4.vle pl (V4.add (V4.smul (1/7) a) (V4.smul (6/7) b)) := by
  refine ⟨?_, ?_, ?_, ?_⟩ <;> simp only [V4.add, V4.smul]
  · linarith [ha.1, hb.1]
  · linarith [ha.2.1, hb.2.1]
  · linarith [ha.2.2.1, hb.2.2.1]
  · linarith [ha.2.2.2, hb.2.2.2]

/-- Helper: upper bound of a two-point convex combination with weights 1/7
and 6/7. -/
theorem vle_convex2_hi {R : Type} [LinearOrderedField R] (pu a b : V4 R)
    (ha : V4.vle a pu) (hb : V4.vle b pu) :
    V4.vle (V4.add (V4.smul (1/7) a) (V4.smul (6/7) b)) pu := by
  refine ⟨?_, ?_, ?_, ?_⟩ <;> simp only [V4.add, V4.smul]
  · linarith [ha.1, hb.1]
  · linarith [ha.2.1, hb.2.1]
  · linarith [ha.2.2.1, hb.2.2.1]
  · linarith [ha.2.2.2, hb.2.2.2]

/-- Helper, the heart of the accurateBounds superset property: the
accumulated minimum and maximum of accurateBounds bound every point of the
curve on the unit interval, radius component included.  The curve point at t
is written as a Bernstein combination of the subdivision control points of
its sample sub-segment, each of which lies between the accumulators. -/
theorem accAcc_contains {R : Type} [LinearOrderedField R] (c : BezierCurveT R)
    (t : R) (h0 : 0 ≤ t) (h1 : t ≤ 1) :
    V4.vle (BezierCurveT.accAcc c).1 (BezierCurveT.eval c t)
    ∧ V4.vle (BezierCurveT.eval c t) (BezierCurveT.accAcc c).2 := by
  obtain ⟨j, hj6, hjl, hjr⟩ := exists_seg t h0 h1
  have hjle : (j : R) ≤ 7 * t := by
    rw [div_le_iff₀ (by norm_num : (0:R) < 7)] at hjl
    linarith
  have hjge : 7 * t ≤ (j : R) + 1 := by
    rw [le_div_iff₀ (by norm_num : (0:R) < 7)] at hjr
    linarith
  have hs0 : 0 ≤ 7 * t - (j : R) := by linarith
  have hs1 : 7 * t - (j : R) ≤ 1 := by linarith
  have ht : (j : R)/7 + (7 * t - (j : R)) * (1/7) = t := by field_simp
  have heval : BezierCurveT.eval c t
      = BezierCurveT.weightDot (BezierBasis.eval (7 * t - (j : R)))
          (subCurve c ((j : R)/7) (1/7)) := by
    rw [show BezierCurveT.weightDot (BezierBasis.eval (7 * t - (j : R)))
          (subCurve c ((j : R)/7) (1/7))
        = BezierCurveT.eval (subCurve c ((j : R)/7) (1/7)) (7 * t - (j : R)) from rfl,
      eval_subCurve, ht]
  have hbj := accAcc_bounds c j (by omega)
  have hbj1 := accAcc_bounds c (j+1) (by omega)
  have hv0 : (subCurve c ((j : R)/7) (1/7)).v0 = BezierCurveT.accP c j :=
    (accP_eval c j).symm
  have hv3 : (subCurve c ((j : R)/7) (1/7)).v3 = BezierCurveT.accP c (j+1) := by
    rw [show (subCurve c ((j : R)/7) (1/7)).v3
        = BezierCurveT.eval c ((j : R)/7 + 1/7) from rfl, ← accP_succ_eval]
  have hv1 := subCurve_v1_convex c j hj6
  have hv2 := subCurve_v2_convex c j
  have hres := weightDot_bounds (7 * t - (j : R)) hs0 hs1
    (subCurve c ((j : R)/7) (1/7)) (BezierCurveT.accAcc c).1 (BezierCurveT.accAcc c).2
    (by rw [hv0]; exact ⟨hbj.1.1, hbj.2.1⟩)
    (by rw [hv1]
        exact ⟨vle_convex2_lo _ _ _ hbj.1.1 hbj.1.2.2,
               vle_convex2_hi _ _ _ hbj.2.1 hbj.2.2.2⟩)
    (by rw [hv2]
        exact ⟨vle_convex2_lo _ _ _ hbj1.1.1 hbj1.1.2.1,
               vle_convex2_hi _ _ _ hbj1.2.1 hbj1.2.2.1⟩)
    (by rw [hv3]; exact ⟨hbj1.1.1, hbj1.2.1⟩)
  rw [heval]
  exact hres

/-- Helper: accurateBounds contains the axis-aligned ball of every curve
point of the unit interval. -/
theorem accurateBounds_ball {R : Type} [LinearOrderedField R]
    (c : BezierCurveT R) (t : R) (h0 : 0 ≤ t) (h1 : t ≤ 1) :
    ballIn (BezierCurveT.accurateBounds c) (BezierCurveT.eval c t) := by
  rcases accAcc_contains c t h0 h1 with ⟨hlo, hhi⟩
  have habs : |(BezierCurveT.eval c t).w|
      ≤ max |(BezierCurveT.accAcc c).1.w| |(BezierCurveT.accAcc c).2.w| :=
    abs_le_max_abs_abs hlo.2.2.2 hhi.2.2.2
  simp only [BezierCurveT.accurateBounds, ballIn, enlarge, const3]
  exact ⟨⟨sub_le_sub hlo.1 habs, add_le_add hhi.1 habs⟩,
         ⟨sub_le_sub hlo.2.1 habs, add_le_add hhi.2.1 habs⟩,
         ⟨sub_le_sub hlo.2.2.1 habs, add_le_add hhi.2.2.1 habs⟩⟩

/-- Containment of a point (x,y,z) in a box, axis by axis. -/
def inBox {R : Type} [LinearOrderedField R] (b : BBox3 R) (p : V3 R) : Prop :=
  (b.lower.x ≤ p.x ∧ p.x ≤ b.upper.x)
  ∧ (b.lower.y ≤ p.y ∧ p.y ≤ b.upper.y)
  ∧ (b.lower.z ≤ p.z ∧ p.z ≤ b.upper.z)

/-- Helper: ball containment gives containment of the center. -/
theorem inBox_of_ballIn {R : Type} [LinearOrderedField R] (b : BBox3 R)
    (p : V4 R) (h : ballIn b p) : inBox b (xyz p) := by
  have habs : (0 : R) ≤ |p.w| := abs_nonneg _
  rcases h with ⟨⟨hx1, hx2⟩, ⟨hy1, hy2⟩, ⟨hz1, hz2⟩⟩
  exact ⟨⟨by simp only [xyz]; linarith, by simp only [xyz]; linarith⟩,
         ⟨by simp only [xyz]; linarith, by simp only [xyz]; linarith⟩,
         ⟨by simp only [xyz]; linarith, by simp only [xyz]; linarith⟩⟩

/-- Helper: the curve starts at v0. -/
theorem eval_zero {R : Type} [LinearOrderedField R] (c : BezierCurveT R) :
    BezierCurveT.eval c 0 = c.v0 := by
  refine V4.ext ?_ ?_ ?_ ?_ <;>
    (simp only [BezierCurveT.eval, BezierCurveT.weightDot, BezierBasis.eval,
      V4.vmadd, V4.add, V4.smul]; ring)

/-- Helper: the curve ends at v3. -/
theorem eval_one {R : Type} [LinearOrderedField R] (c : BezierCurveT R) :
    BezierCurveT.eval c 1 = c.v3 := by
  refine V4.ext ?_ ?_ ?_ ?_ <;>
    (simp only [BezierCurveT.eval, BezierCurveT.weightDot, BezierBasis.eval,
      V4.vmadd, V4.add, V4.smul]; ring)

/-- Helper: the table-driven sample at offset i and granularity N is the
curve point at i/N. -/
theorem eval0_eval {R : Type} [LinearOrderedField R] (c : BezierCurveT R)
    (i N : ℕ) : BezierCurveT.eval0 c i N = BezierCurveT.eval c ((i : R)/(N : R)) := rfl

/-- C3 amended: accurateBounds contains, for every parameter t in [0,1], the
axis-aligned ball centered at eval(t) with the interpolated radius |w(t)|
(hence the Euclidean swept volume); tessellatedBounds(N) contains the ball of
every sampled polyline point eval0(i,N) with i < N and the ball of the final
control point v3, which is the polyline geometry it is specified against. -/
theorem claim3_amended_bounds_contain {R : Type} [LinearOrderedField R]
    (c : BezierCurveT R) (t : R) (N i : ℕ)
    (h0 : 0 ≤ t) (h1 : t ≤ 1) (hiN : i < N) :
    ballIn (BezierCurveT.accurateBounds c) (BezierCurveT.eval c t)
    ∧ ballIn (BezierCurveT.tessellatedBounds c N) (BezierCurveT.eval0 c i N)
    ∧ ballIn (BezierCurveT.tessellatedBounds c N) c.v3 := by
  refine ⟨accurateBounds_ball c t h0 h1, ?_, ?_⟩
  · rw [tessellatedBounds_eq_general]
    exact (tessGeneral_contains c N).1 i hiN
  · rw [tessellatedBounds_eq_general]
    exact (tessGeneral_contains c N).2

/-- Witness for C3 amended at the concrete arch curve, t = 1/2, N = 5, i = 2. -/
theorem claim3_witness :
    ballIn (BezierCurveT.accurateBounds curveArch) (BezierCurveT.eval curveArch ((1 : ℚ)/2))
    ∧ ballIn (BezierCurveT.tessellatedBounds curveArch 5) (BezierCurveT.eval0 curveArch 2 5)
    ∧ ballIn (BezierCurveT.tessellatedBounds curveArch 5) curveArch.v3 :=
  claim3_amended_bounds_contain curveArch ((1 : ℚ)/2) 5 2 (by norm_num) (by norm_num)
    (by omega)

/-- C4 amended: both bounds contain the endpoint control points v0 and v3;
accurateBounds also contains the curve midpoint eval(1/2); tessellatedBounds
contains the midpoint whenever the segment count is even (so that the
midpoint is one of its samples), which fails for odd counts; the interior
control points v1 and v2 are not contained in general. -/
theorem claim4_amended_endpoint_and_midpoint {R : Type} [LinearOrderedField R]
    (c : BezierCurveT R) (N : ℕ) (hN : 1 ≤ N) :
    inBox (BezierCurveT.accurateBounds c) (xyz c.v0)
    ∧ inBox (BezierCurveT.accurateBounds c) (xyz c.v3)
    ∧ inBox (BezierCurveT.accurateBounds c) (xyz (BezierCurveT.eval c (1/2)))
    ∧ inBox (BezierCurveT.tessellatedBounds c N) (xyz c.v0)
    ∧ inBox (BezierCurveT.tessellatedBounds c N) (xyz c.v3)
    ∧ (N % 2 = 0 →
        inBox (BezierCurveT.tessellatedBounds c N) (xyz (BezierCurveT.eval c (1/2)))) := by
  refine ⟨?_, ?_, ?_, ?_, ?_, ?_⟩
  · rw [← eval_zero c]
    exact inBox_of_ballIn _ _ (accurateBounds_ball c 0 le_rfl zero_le_one)
  · rw [← eval_one c]
    exact inBox_of_ballIn _ _ (accurateBounds_ball c 1 zero_le_one le_rfl)
  · exact inBox_of_ballIn _ _ (accurateBounds_ball c (1/2) (by norm_num) (by norm_num))
  · have h := (tessGeneral_contains c N).1 0 (by omega)
    rw [eval0_eval] at h
    rw [show ((0 : ℕ) : R)/(N : R) = 0 by simp] at h
    rw [eval_zero c] at h
    rw [tessellatedBounds_eq_general]
    exact inBox_of_ballIn _ _ h
  · rw [tessellatedBounds_eq_general]
    exact inBox_of_ballIn _ _ (tessGeneral_contains c N).2
  · intro heven
    obtain ⟨m, hm⟩ : ∃ m, N = 2 * m := ⟨N / 2, by omega⟩
    have hm1 : 1 ≤ m := by omega
    have h := (tessGeneral_contains c N).1 m (by omega)
    rw [eval0_eval] at h
    have hcast : ((m : ℕ) : R)/((N : ℕ) : R) = 1/2 := by
      subst hm
      have hmne : ((m : ℕ) : R) ≠ 0 := by
        simp only [ne_eq, Nat.cast_eq_zero]
        omega
      push_cast
      field_simp
      ring
    rw [hcast] at h
    rw [tessellatedBounds_eq_general]
    exact inBox_of_ballIn _ _ h

/-- Witness for C4 amended at the concrete spike curve with N = 4. -/
theorem claim4_witness :
    inBox (BezierCurveT.accurateBounds curveSpike) (xyz curveSpike.v0)
    ∧ inBox (BezierCurveT.accurateBounds curveSpike) (xyz curveSpike.v3)
    ∧ inBox (BezierCurveT.accurateBounds curveSpike)
        (xyz (BezierCurveT.eval curveSpike ((1 : ℚ)/2)))
    ∧ inBox (BezierCurveT.tessellatedBounds curveSpike 4) (xyz curveSpike.v0)
    ∧ inBox (BezierCurveT.tessellatedBounds curveSpike 4) (xyz curveSpike.v3)
    ∧ ((4 : ℕ) % 2 = 0 →
        inBox (BezierCurveT.tessellatedBounds curveSpike 4)
          (xyz (BezierCurveT.eval curveSpike ((1 : ℚ)/2)))) :=
  claim4_amended_endpoint_and_midpoint curveSpike 4 (by omega)

/- Embedding of the instance transform logic of scene_instance.h.  The
linear-algebra primitives (Vec3fa, LinearSpace3fa, AffineSpace3fa,
Quaternion3f) are external to the excerpt and are, per the spec, treated as
given with known semantics; they are embedded here over the rationals with
their standard meaning.  Vec3fa is four floats wide, and embree runs its
componentwise arithmetic on all four lanes, so linear-space columns and
translations keep their w component. -/

/-- Quaternion with components r, i, j, k (Quaternion3f). -/
@[ext]
structure Quat3 where
  r : ℚ
  i : ℚ
  j : ℚ
  k : ℚ
deriving DecidableEq, Repr

/-- Column-major 3x3 linear space whose columns are four-wide Vec3fa values
(LinearSpace3fa). -/
@[ext]
structure Lin3 where
  vx : V4 ℚ
  vy : V4 ℚ
  vz : V4 ℚ
deriving DecidableEq, Repr

/-- Affine space: linear part plus translation (AffineSpace3fa). -/
@[ext]
structure Aff3 where
  l : Lin3
  p : V4 ℚ
deriving DecidableEq, Repr

/-- Identity linear space (LinearSpace3fa(one)), with zero w lanes. -/
def idLin3 : Lin3 := ⟨⟨1, 0, 0, 0⟩, ⟨0, 1, 0, 0⟩, ⟨0, 0, 1, 0⟩⟩

/-- Identity affine space (AffineSpace3fa(one)). -/
def idAff3 : Aff3 := ⟨idLin3, V4.zero⟩

/-- Application of a linear space to a vector: v.x * vx + v.y * vy + v.z * vz,
computed on all four lanes of the columns as embree does (only the x, y, z
scalars of v are consumed). -/
def linApply (a : Lin3) (v : V4 ℚ) : V4 ℚ :=
  V4.vmadd v.x a.vx (V4.vmadd v.y a.vy (V4.smul v.z a.vz))

/-- Composition of linear spaces (LinearSpace3fa multiplication): columns of b
mapped through a. -/
def linMul (a b : Lin3) : Lin3 :=
  ⟨linApply a b.vx, linApply a b.vy, linApply a b.vz⟩

/-- Composition of affine spaces (AffineSpace3fa multiplication):
(a * b).l = a.l * b.l and (a * b).p = a.l * b.p + a.p. -/
def affMul (a b : Aff3) : Aff3 :=
  ⟨linMul a.l b.l, V4.add (linApply a.l b.p) a.p⟩

/-- Action of an affine space on a point, restricted to the meaningful x,y,z
lanes (xfmPoint). -/
def xfmPoint (a : Aff3) (v : V3 ℚ) : V3 ℚ :=
  xyz (V4.add (linApply a.l ⟨v.x, v.y, v.z, 0⟩) a.p)

/-- Rotation matrix of a quaternion (LinearSpace3fa constructed from a
Quaternion3f).  Modelled from the spec: the quaternion-to-matrix primitive is
outside the excerpt; this is the standard formula, with zero w lanes. -/
def quatToLin (q : Quat3) : Lin3 :=
  ⟨⟨q.r * q.r + q.i * q.i - q.j * q.j - q.k * q.k,
    2 * (q.i * q.j + q.r * q.k),
    2 * (q.i * q.k - q.r * q.j), 0⟩,
   ⟨2 * (q.i * q.j - q.r * q.k),
    q.r * q.r - q.i * q.i + q.j * q.j - q.k * q.k,
    2 * (q.j * q.k + q.r * q.i), 0⟩,
   ⟨2 * (q.i * q.k + q.r * q.j),
    2 * (q.j * q.k - q.r * q.i),
    q.r * q.r - q.i * q.i - q.j * q.j + q.k * q.k, 0⟩⟩

/-- Reconstruction of an affine transform from a quaternion decomposition
(scene_instance.h quaternionDecompositionToAffineSpace): the quaternion is
read from the w slots (vx.w, vy.w, vz.w, p.w), D is AffineSpace3fa(one) with
its translation set from the packed slots vx.y, vx.z, vy.z, M is the input
with those packed slots zeroed, R is the rotation of the quaternion, and the
result is D * R * M. -/
def quaternionDecompositionToAffineSpace (qd : Aff3) : Aff3 :=
  let q : Quat3 := ⟨qd.l.vx.w, qd.l.vy.w, qd.l.vz.w, qd.p.w⟩
  let D : Aff3 := ⟨idLin3, ⟨qd.l.vx.y, qd.l.vx.z, qd.l.vy.z, 0⟩⟩
  let M : Aff3 :=
    ⟨⟨⟨qd.l.vx.x, 0, 0, qd.l.vx.w⟩,
      ⟨qd.l.vy.x, qd.l.vy.y, 0, qd.l.vy.w⟩,
      qd.l.vz⟩, qd.p⟩
  let R : Aff3 := ⟨quatToLin q, V4.zero⟩
  affMul (affMul D R) M

/-- The shear matrix that the claim says D is: the three packed off-diagonal
values placed back into off-diagonal slots of the linear part of an otherwise
identity matrix.  Written from the words of the claim, for comparison with the
source definition. -/
def claimShearD (qd : Aff3) : Aff3 :=
  ⟨⟨⟨1, 0, 0, 0⟩,
    ⟨qd.l.vx.y, 1, 0, 0⟩,
    ⟨qd.l.vx.z, qd.l.vy.z, 1, 0⟩⟩, V4.zero⟩

/-- The reconstruction the claim describes: D * R * M with D the shear matrix
built from the three packed off-diagonal values. -/
def claimShearReconstruction (qd : Aff3) : Aff3 :=
  let q : Quat3 := ⟨qd.l.vx.w, qd.l.vy.w, qd.l.vz.w, qd.p.w⟩
  let M : Aff3 :=
    ⟨⟨⟨qd.l.vx.x, 0, 0, qd.l.vx.w⟩,
      ⟨qd.l.vy.x, qd.l.vy.y, 0, qd.l.vy.w⟩,
      qd.l.vz⟩, qd.p⟩
  let R : Aff3 := ⟨quatToLin q, V4.zero⟩
  affMul (affMul (claimShearD qd) R) M

/-- Translation affine space moving points by d. -/
def translateAff (d : V3 ℚ) : Aff3 := ⟨idLin3, ⟨d.x, d.y, d.z, 0⟩⟩

/-- Rotation affine space of a quaternion. -/
def rotAff (q : Quat3) : Aff3 := ⟨quatToLin q, V4.zero⟩

/-- A quaternion decomposition packed as setQuaternionDecomposition stores it:
the residual upper-triangular scale/skew transform plus shift in the regular
slots, the quaternion in the w slots, and the translation in the otherwise
unused slots vx.y, vx.z, vy.z. -/
def packDecomposition (s : Aff3) (q : Quat3) (d : V3 ℚ) : Aff3 :=
  ⟨⟨⟨s.l.vx.x, d.x, d.y, q.r⟩,
    ⟨s.l.vy.x, s.l.vy.y, d.z, q.i⟩,
    ⟨s.l.vz.x, s.l.vz.y, s.l.vz.z, q.j⟩⟩,
   ⟨s.p.x, s.p.y, s.p.z, q.k⟩⟩

/-- The residual transform of a packed decomposition: the packed slots zeroed
(the w lanes do not participate in the affine action). -/
def residualOf (s : Aff3) : Aff3 :=
  ⟨⟨⟨s.l.vx.x, 0, 0, 0⟩,
    ⟨s.l.vy.x, s.l.vy.y, 0, 0⟩,
    ⟨s.l.vz.x, s.l.vz.y, s.l.vz.z, 0⟩⟩,
   ⟨s.p.x, s.p.y, s.p.z, 0⟩⟩

/-- Concrete decomposition separating the source from the claim: identity
quaternion, identity residual, packed off-diagonal slot vx.y = 1. -/
def qdEx : Aff3 :=
  ⟨⟨⟨1, 1, 0, 1⟩, ⟨0, 1, 0, 0⟩, ⟨0, 0, 1, 0⟩⟩, ⟨0, 0, 0, 0⟩⟩

/-- Counterexample to C1 as stated: on qdEx the source reconstruction and the
reconstruction with D read as a shear matrix act differently on the origin
(the source translates the origin to (1,0,0), the claimed shear fixes it), so
D is not the shear matrix built from the packed off-diagonal values. -/
theorem claim1_counterexample :
    xfmPoint (quaternionDecompositionToAffineSpace qdEx) ⟨0, 0, 0⟩
      ≠ xfmPoint (claimShearReconstruction qdEx) ⟨0, 0, 0⟩ := by
  norm_num [quaternionDecompositionToAffineSpace, claimShearReconstruction,
    claimShearD, qdEx, xfmPoint, affMul, linMul, linApply, quatToLin, idLin3,
    idAff3, translateAff, V4.vmadd, V4.add, V4.smul, V4.zero, xyz, V3.mk.injEq]

/-- C1 amended: the packed slots hold the translation, not shear values: for
every packed decomposition built from a residual transform s, quaternion q and
translation d, the reconstruction acts on every point as the residual
transform, then the rotation, then the translation by d, in that order. -/
theorem claim1_quaternion_decomposition_amended (s : Aff3) (q : Quat3)
    (d : V3 ℚ) (v : V3 ℚ) :
    xfmPoint (quaternionDecompositionToAffineSpace (packDecomposition s q d)) v
      = xfmPoint (translateAff d)
          (xfmPoint (rotAff q) (xfmPoint (residualOf s) v)) := by
  simp only [quaternionDecompositionToAffineSpace, packDecomposition,
    translateAff, rotAff, residualOf, xfmPoint, affMul, linMul, linApply,
    quatToLin, idLin3, V4.vmadd, V4.add, V4.smul, V4.zero, xyz]
  refine V3.ext ?_ ?_ ?_ <;> ring

/-- Interpolation mode enum of scene_instance.h. -/
inductive TransformationInterpolation where
  | LINEAR : TransformationInterpolation
  | NONLINEAR : TransformationInterpolation
deriving DecidableEq, Repr

/-- Linear interpolation of four-wide vectors: lerp(a, b, t) = (1-t)*a + t*b.
Modelled from the spec: the lerp primitive on vectors and affine spaces is
outside the excerpt, with this standard componentwise meaning. -/
def lerpV4 (a b : V4 ℚ) (t : ℚ) : V4 ℚ :=
  V4.add (V4.smul (1 - t) a) (V4.smul t b)

/-- Componentwise linear interpolation of affine spaces (lerp on
AffineSpace3fa). -/
def lerpAff (a b : Aff3) (t : ℚ) : Aff3 :=
  ⟨⟨lerpV4 a.l.vx b.l.vx t, lerpV4 a.l.vy b.l.vy t, lerpV4 a.l.vz b.l.vz t⟩,
   lerpV4 a.p b.p t⟩

/-- The instance state used by the queries of scene_instance.h.  The array of
per-time-step transforms is total over the integers (the code indexes it with
clamped segment indices).  The fields below the transform array stand for the
out-of-excerpt collaborators: the time range and segment count of the Geometry
base class, the per-key bounds reported by the instanced accelerator, its
overall bounds, the quaternion slerp of the math library (it involves
trigonometric functions, so it stays a parameter of the model), the affine
inverse rcp, the time segment range of a time interval, and the linear bounds
of a time range (declared in scene_instance.h but defined outside the
excerpt).  All are modelled from the spec as given primitives. -/
structure InstanceModel where
  local2world : ℤ → Aff3
  interpolation : TransformationInterpolation
  timeRangeLo : ℚ
  timeRangeHi : ℚ
  fnumTimeSegments : ℚ
  objBounds : ℤ → BBox3 ℚ
  objBoundsOverall : BBox3 ℚ
  slerpA : Aff3 → Aff3 → ℚ → Aff3
  rcpA : Aff3 → Aff3

/-- The scaled time of getTimeSegment: (time - t0) / (t1 - t0) * numSegments.
Modelled from the spec (Geometry base class, outside the excerpt). -/
def timeScaled (inst : InstanceModel) (t : ℚ) : ℚ :=
  (t - inst.timeRangeLo) / (inst.timeRangeHi - inst.timeRangeLo) * inst.fnumTimeSegments

/-- Integer time segment index of a time value: clamp(floor(timeScaled), 0,
numSegments - 1).  Modelled from the spec. -/
def timeSegment (inst : InstanceModel) (t : ℚ) : ℤ :=
  max 0 (min (Int.floor (timeScaled inst t)) (Int.floor (inst.fnumTimeSegments - 1)))

/-- Fractional position inside the time segment: timeScaled - itime.
Modelled from the spec. -/
def timeSegmentFrac (inst : InstanceModel) (t : ℚ) : ℚ :=
  timeScaled inst t - (timeSegment inst t : ℚ)

/-- Local-to-world transform at a scalar time (Instance::getLocal2World(t)):
slerp of the two neighbouring keys in NONLINEAR mode, lerp in LINEAR mode. -/
def getLocal2World (inst : InstanceModel) (t : ℚ) : Aff3 :=
  let itime := timeSegment inst t
  let ftime := timeSegmentFrac inst t
  match inst.interpolation with
  | TransformationInterpolation.NONLINEAR =>
      inst.slerpA (inst.local2world (itime + 0)) (inst.local2world (itime + 1)) ftime
  | TransformationInterpolation.LINEAR =>
      lerpAff (inst.local2world (itime + 0)) (inst.local2world (itime + 1)) ftime

/-- World-to-local transform at a scalar time (Instance::getWorld2Local(t)):
the inverse of the interpolated local-to-world transform. -/
def getWorld2Local1 (inst : InstanceModel) (t : ℚ) : Aff3 :=
  inst.rcpA (getLocal2World inst t)

/-- Componentwise validity order used by isvalid: modelled from the spec, a
box is valid when it is non-degenerate (lower at most upper on every axis)
and finite (every coordinate below the float large threshold in magnitude,
embedding the FLT_LARGE check on exact numbers). -/
def fltLarge : ℚ := 1844674297419792384

/-- Validity of a box (embree isvalid on BBox3fa).  Modelled from the spec:
finite and non-degenerate. -/
def isvalidB (b : BBox3 ℚ) : Bool :=
  decide (b.lower.x ≤ b.upper.x) && decide (b.lower.y ≤ b.upper.y)
    && decide (b.lower.z ≤ b.upper.z)
    && decide (|b.lower.x| ≤ fltLarge) && decide (|b.lower.y| ≤ fltLarge)
    && decide (|b.lower.z| ≤ fltLarge)
    && decide (|b.upper.x| ≤ fltLarge) && decide (|b.upper.y| ≤ fltLarge)
    && decide (|b.upper.z| ≤ fltLarge)

/-- The eight corners of a box. -/
def boxCorners (b : BBox3 ℚ) : List (V3 ℚ) :=
  [⟨b.lower.x, b.lower.y, b.lower.z⟩, ⟨b.lower.x, b.lower.y, b.upper.z⟩,
   ⟨b.lower.x, b.upper.y, b.lower.z⟩, ⟨b.lower.x, b.upper.y, b.upper.z⟩,
   ⟨b.upper.x, b.lower.y, b.lower.z⟩, ⟨b.upper.x, b.lower.y, b.upper.z⟩,
   ⟨b.upper.x, b.upper.y, b.lower.z⟩, ⟨b.upper.x, b.upper.y, b.upper.z⟩]

/-- Box transformed by an affine space (xfmBounds).  Modelled from the spec:
the transformed corners merged into one axis-aligned box. -/
def xfmBounds (a : Aff3) (b : BBox3 ℚ) : BBox3 ℚ :=
  let pts := (boxCorners b).map (xfmPoint a)
  let q := xfmPoint a ⟨b.lower.x, b.lower.y, b.lower.z⟩
  ⟨pts.foldl vmin3 q, pts.foldl vmax3 q⟩

/-- Bounds of the instance at one motion key (Instance::bounds(i, itime) with
i = 0): the instanced object bounds at that key transformed by the key
transform. -/
def boundsAt (inst : InstanceModel) (itime : ℤ) : BBox3 ℚ :=
  xfmBounds (inst.local2world itime) (inst.objBounds itime)

/-- Default-time bounds of the instance (Instance::bounds(i) with i = 0): the
overall object bounds transformed by the key 0 transform. -/
def boundsZero (inst : InstanceModel) : BBox3 ℚ :=
  xfmBounds (inst.local2world 0) inst.objBoundsOverall

/-- Linear bounds at one time segment (Instance::linearBounds(i, itime)): the
box pair of the two neighbouring keys. -/
structure LBBox where
  bounds0 : BBox3 ℚ
  bounds1 : BBox3 ℚ
deriving DecidableEq, Repr

/-- Merge of two boxes. -/
def mergeB (a b : BBox3 ℚ) : BBox3 ℚ :=
  ⟨vmin3 a.lower b.lower, vmax3 a.upper b.upper⟩

/-- The linear bounds of one time segment (linearBounds(0, itime)). -/
def linearBoundsSeg (inst : InstanceModel) (itime : ℕ) : LBBox :=
  ⟨boundsAt inst itime, boundsAt inst (itime + 1)⟩

/-- Overall box of a linear box pair (LBBox3fa::bounds): the merge of the two
end boxes. -/
def lbboxBounds (l : LBBox) : BBox3 ℚ := mergeB l.bounds0 l.bounds1

/-- Index range with inclusive iteration bound as used by Instance::valid
(the loop runs from the range begin to its end inclusive; the one-argument
range constructor used at a single time step itime produces begin itime and
end itime + 1). -/
structure Rng where
  lo : ℕ
  hi : ℕ
deriving DecidableEq, Repr

/-- The inclusive validity scan of Instance::valid, running over n
consecutive keys starting at key itime: false as soon as one key bound is
invalid (the source for-loop from begin to end inclusive is embedded with the
explicit iteration count n = end + 1 - begin). -/
def validFrom (inst : InstanceModel) : ℕ → ℕ → Bool
  | _, 0 => true
  | itime, n + 1 =>
      if !(isvalidB (boundsAt inst itime)) then false
      else validFrom inst (itime + 1) n

/-- Validity of the instance over a key range (Instance::valid(i, r) with
i = 0): every key bound from r.lo to r.hi inclusive is valid. -/
def valid (inst : InstanceModel) (r : Rng) : Bool :=
  validFrom inst r.lo (r.hi + 1 - r.lo)

/-- Helper for C5: the scan over n keys starting at itime is true exactly when
every scanned key bound is valid. -/
theorem validFrom_iff (inst : InstanceModel) :
    ∀ (n itime : ℕ), validFrom inst itime n = true
      ↔ ∀ j : ℕ, itime ≤ j → j < itime + n → isvalidB (boundsAt inst j) = true := by
  intro n
  induction n with
  | zero =>
      intro itime
      constructor
      · intro _ j h1 h2; omega
      · intro _; rfl
  | succ m ih =>
      intro itime
      by_cases h : isvalidB (boundsAt inst itime) = true
      · have hstep : validFrom inst itime (m + 1) = validFrom inst (itime + 1) m := by
          simp [validFrom, h]
        rw [hstep, ih (itime + 1)]
        constructor
        · intro hall j hj1 hj2
          rcases Nat.eq_or_lt_of_le hj1 with heq | hlt
          · exact heq ▸ h
          · exact hall j hlt (by omega)
        · intro hall j hj1 hj2
          exact hall j (by omega) (by omega)
      · have hfalse : isvalidB (boundsAt inst itime) = false := by
          revert h; cases isvalidB (boundsAt inst itime) <;> simp
        have hstep : validFrom inst itime (m + 1) = false := by
          simp [validFrom, hfalse]
        rw [hstep]
        constructor
        · intro hc; cases hc
        · intro hall
          exact absurd (hall itime le_rfl (by omega)) h

/-- C5: Instance::valid(0, r) is true exactly when the instance bounds at
every key index from r.lo to r.hi inclusive are valid; a single invalid key
bound in the range makes it false. -/
theorem claim5_valid_iff_all_keys_valid (inst : InstanceModel) (r : Rng)
    (hr : r.lo ≤ r.hi) :
    valid inst r = true
      ↔ ∀ itime : ℕ, r.lo ≤ itime → itime ≤ r.hi
          → isvalidB (boundsAt inst itime) = true := by
  unfold valid
  rw [validFrom_iff]
  constructor
  · intro hall j hj1 hj2; exact hall j hj1 (by omega)
  · intro hall j hj1 hj2; exact hall j hj1 (by omega)

/-- Builder-facing primitive reference record: box plus geometry and
primitive ids (PrimRef). -/
structure PrimRef where
  bbox : BBox3 ℚ
  geomID : ℕ
  primID : ℕ
deriving DecidableEq, Repr

/-- Center times two of a box (PrimRef::center2): lower + upper. -/
def center2 (b : BBox3 ℚ) : V3 ℚ :=
  ⟨b.lower.x + b.upper.x, b.lower.y + b.upper.y, b.lower.z + b.upper.z⟩

/-- Builder statistics record (PrimInfo): primitive count plus geometry and
centroid bounds.  The empty box sentinel with infinite bounds is embedded as
none; merging a box into none yields that box, as merging with the infinite
empty box does. -/
structure PrimInfo where
  cnt : ℕ
  geomBounds : Option (BBox3 ℚ)
  centBounds : Option (BBox3 ℚ)
deriving DecidableEq, Repr

/-- PrimInfo(empty): no primitives, empty bounds. -/
def emptyPrimInfo : PrimInfo := ⟨0, none, none⟩

/-- Merge a box into a possibly empty box accumulator. -/
def mergeOpt (a : Option (BBox3 ℚ)) (b : BBox3 ℚ) : Option (BBox3 ℚ) :=
  match a with
  | none => some b
  | some a0 => some (mergeB a0 b)

/-- The single-point box of a centroid. -/
def pointBox (p : V3 ℚ) : BBox3 ℚ := ⟨p, p⟩

/-- PrimInfo::add_center2: count one more primitive, extend the geometry
bounds by its box and the centroid bounds by its doubled center point. -/
def add_center2 (pinfo : PrimInfo) (prim : PrimRef) : PrimInfo :=
  ⟨pinfo.cnt + 1, mergeOpt pinfo.geomBounds prim.bbox,
   mergeOpt pinfo.centBounds (pointBox (center2 prim.bbox))⟩

/-- Motion-blur primitive reference (PrimRefMB): linear box pair plus the
time metadata and ids recorded by the source constructor call. -/
structure PrimRefMB where
  lbounds : LBBox
  num_time_segments : ℕ
  timeRangeLo : ℚ
  timeRangeHi : ℚ
  totalTimeSegments : ℕ
  geomID : ℕ
  primID : ℕ
deriving DecidableEq, Repr

/-- Motion-blur builder statistics (PrimInfoMB): primitive count plus the
merged linear bounds of the added references, with the empty sentinel as
none. -/
structure PrimInfoMB where
  cnt : ℕ
  lbounds : Option LBBox
deriving DecidableEq, Repr

/-- PrimInfoMB(empty). -/
def emptyPrimInfoMB : PrimInfoMB := ⟨0, none⟩

/-- Merge a linear box pair into a possibly empty accumulator. -/
def mergeOptL (a : Option LBBox) (b : LBBox) : Option LBBox :=
  match a with
  | none => some b
  | some a0 => some ⟨mergeB a0.bounds0 b.bounds0, mergeB a0.bounds1 b.bounds1⟩

/-- PrimInfoMB::add_primref: count one more primitive and extend the merged
linear bounds by its pair. -/
def add_primref (pinfo : PrimInfoMB) (prim : PrimRefMB) : PrimInfoMB :=
  ⟨pinfo.cnt + 1, mergeOptL pinfo.lbounds prim.lbounds⟩

/-- Extra fields of the instance used by the motion-blur producers, bundled
with the core model.  Modelled from the spec: the segment range of a time
interval (Geometry::timeSegmentRange) and the linear bounds of a time range
(Instance::linearBounds over BBox1f, declared in the excerpt but defined
outside it) are out-of-excerpt collaborators, as are the stored segment count
and time range of the Geometry base. -/
structure InstanceMB where
  core : InstanceModel
  numTimeSegments : ℕ
  timeSegmentRangeF : ℚ × ℚ → Rng
  linearBoundsRangeF : ℚ × ℚ → LBBox

/-- InstanceISA::createPrimRefArray: if the default-time bounds are invalid,
return the empty statistics and write nothing; otherwise write one primitive
reference at index k and return the statistics of exactly that record.  The
output array mvector of PrimRef values is embedded as a map from indices to
optional records. -/
def createPrimRefArray (inst : InstanceModel) (prims : ℕ → Option PrimRef)
    (k : ℕ) (geomID : ℕ) : PrimInfo × (ℕ → Option PrimRef) :=
  let b := boundsZero inst
  if !(isvalidB b) then (emptyPrimInfo, prims)
  else
    let prim : PrimRef := ⟨b, geomID, 0⟩
    (add_center2 emptyPrimInfo prim, Function.update prims k (some prim))

/-- InstanceISA::createPrimRefArrayMB: if the validity scan over the requested
time step fails, return the empty statistics and write nothing; otherwise
write one primitive reference holding the merged linear bounds of segment
itime at index k. -/
def createPrimRefArrayMB (inst : InstanceModel) (prims : ℕ → Option PrimRef)
    (itime : ℕ) (k : ℕ) (geomID : ℕ) : PrimInfo × (ℕ → Option PrimRef) :=
  if !(valid inst ⟨itime, itime + 1⟩) then (emptyPrimInfo, prims)
  else
    let prim : PrimRef := ⟨lbboxBounds (linearBoundsSeg inst itime), geomID, 0⟩
    (add_center2 emptyPrimInfo prim, Function.update prims k (some prim))

/-- InstanceISA::createPrimRefMBArray: if the validity scan over the segment
range of the requested time range fails, return the empty statistics and
write nothing; otherwise write one motion-blur reference at index k. -/
def createPrimRefMBArray (inst : InstanceMB) (prims : ℕ → Option PrimRefMB)
    (t0t1 : ℚ × ℚ) (k : ℕ) (geomID : ℕ) : PrimInfoMB × (ℕ → Option PrimRefMB) :=
  if !(valid inst.core (inst.timeSegmentRangeF t0t1)) then (emptyPrimInfoMB, prims)
  else
    let prim : PrimRefMB :=
      ⟨inst.linearBoundsRangeF t0t1, inst.numTimeSegments,
       inst.core.timeRangeLo, inst.core.timeRangeHi, inst.numTimeSegments,
       geomID, 0⟩
    (add_primref emptyPrimInfoMB prim, Function.update prims k (some prim))

/-- C9: each primitive-reference producer returns the empty statistics and
leaves the output array untouched when its validity check fails, and
otherwise writes exactly one record at the starting index k (all other
indices unchanged) and returns statistics covering exactly that record (count
one, geometry bounds the record box, centroid bounds its center point). -/
theorem claim9_primref_producers (inst : InstanceModel) (instMB : InstanceMB)
    (primsA primsB : ℕ → Option PrimRef) (primsC : ℕ → Option PrimRefMB)
    (k itime geomID : ℕ) (t0t1 : ℚ × ℚ) :
    (isvalidB (boundsZero inst) = false →
       createPrimRefArray inst primsA k geomID = (emptyPrimInfo, primsA))
    ∧ (isvalidB (boundsZero inst) = true →
       (createPrimRefArray inst primsA k geomID).2 k
           = some ⟨boundsZero inst, geomID, 0⟩
         ∧ (∀ j : ℕ, j ≠ k → (createPrimRefArray inst primsA k geomID).2 j = primsA j)
         ∧ (createPrimRefArray inst primsA k geomID).1
             = ⟨1, some (boundsZero inst),
                some (pointBox (center2 (boundsZero inst)))⟩)
    ∧ (valid inst ⟨itime, itime + 1⟩ = false →
       createPrimRefArrayMB inst primsB itime k geomID = (emptyPrimInfo, primsB))
    ∧ (valid inst ⟨itime, itime + 1⟩ = true →
       (createPrimRefArrayMB inst primsB itime k geomID).2 k
           = some ⟨lbboxBounds (linearBoundsSeg inst itime), geomID, 0⟩
         ∧ (∀ j : ℕ, j ≠ k → (createPrimRefArrayMB inst primsB itime k geomID).2 j = primsB j)
         ∧ (createPrimRefArrayMB inst primsB itime k geomID).1
             = ⟨1, some (lbboxBounds (linearBoundsSeg inst itime)),
                some (pointBox (center2 (lbboxBounds (linearBoundsSeg inst itime))))⟩)
    ∧ (valid instMB.core (instMB.timeSegmentRangeF t0t1) = false →
       createPrimRefMBArray instMB primsC t0t1 k geomID = (emptyPrimInfoMB, primsC))
    ∧ (valid instMB.core (instMB.timeSegmentRangeF t0t1) = true →
       (createPrimRefMBArray instMB primsC t0t1 k geomID).2 k
           = some ⟨instMB.linearBoundsRangeF t0t1, instMB.numTimeSegments,
                  instMB.core.timeRangeLo, instMB.core.timeRangeHi,
                  instMB.numTimeSegments, geomID, 0⟩
         ∧ (∀ j : ℕ, j ≠ k → (createPrimRefMBArray instMB primsC t0t1 k geomID).2 j = primsC j)
         ∧ (createPrimRefMBArray instMB primsC t0t1 k geomID).1
             = ⟨1, some (instMB.linearBoundsRangeF t0t1)⟩) := by
  refine ⟨?_, ?_, ?_, ?_, ?_, ?_⟩
  · intro h
    simp [createPrimRefArray, h]
  · intro h
    refine ⟨?_, fun j hj => ?_, ?_⟩
    · simp [createPrimRefArray, h, Function.update]
    · simp [createPrimRefArray, h, Function.update, hj]
    · simp [createPrimRefArray, h, add_center2, emptyPrimInfo, mergeOpt]
  · intro h
    simp [createPrimRefArrayMB, h]
  · intro h
    refine ⟨?_, fun j hj => ?_, ?_⟩
    · simp [createPrimRefArrayMB, h, Function.update]
    · simp [createPrimRefArrayMB, h, Function.update, hj]
    · simp [createPrimRefArrayMB, h, add_center2, emptyPrimInfo, mergeOpt]
  · intro h
    simp [createPrimRefMBArray, h]
  · intro h
    refine ⟨?_, fun j hj => ?_, ?_⟩
    · simp [createPrimRefMBArray, h, Function.update]
    · simp [createPrimRefMBArray, h, Function.update, hj]
    · simp [createPrimRefMBArray, h, add_primref, emptyPrimInfoMB, mergeOptL]

/- Batched world-to-local evaluation over K lanes.  A vbool is a function
from lane indices to Bool, a vfloat and vint are lane-indexed scalars, and a
wide affine space is a lane-indexed Aff3; the wide slerp, lerp and rcp act
lane-wise.  bsf(movemask(valid)) is the first active lane in lane order, and
next_unique (a SIMD helper outside the excerpt, modelled from the spec as the
find-next-unique-value-mark-and-remove step it names) reads the segment index
of the first active lane, selects all active lanes sharing it and removes
them from the mask.  The source while-loop runs until the mask is empty; the
embedding gives the recursion an explicit fuel parameter, called with fuel K
by the entry points, and the theorems prove that fuel K always suffices. -/

/-- First active lane of a mask (bsf of the movemask). -/
def firstActive {K : ℕ} (v : Fin K → Bool) : Option (Fin K) :=
  (List.finRange K).find? v

/-- Test of all(valid, p): every active lane satisfies p. -/
def allLanes {K : ℕ} (valid p : Fin K → Bool) : Bool :=
  (List.finRange K).all (fun l => !(valid l) || p l)

/-- Number of active lanes of a mask. -/
def countTrue {K : ℕ} (v : Fin K → Bool) : ℕ :=
  (Finset.univ.filter (fun l => v l = true)).card

/-- The divergence partition loop shared by getWorld2LocalSlerp and
getWorld2LocalLerp: while lanes remain active, read the segment index of the
first active lane, select all active lanes with the same index into one
group, overwrite their space0 and space1 entries with the two neighbouring
key transforms of that segment, and remove the group from the mask.  Returns
the list of (segment index, group mask) pairs together with the two selected
wide transforms. -/
def partitionLoopF {K : ℕ} (l2w : ℤ → Aff3) (itk : Fin K → ℤ) :
    ℕ → (Fin K → Bool) → (Fin K → Aff3) → (Fin K → Aff3)
      → List (ℤ × (Fin K → Bool)) × (Fin K → Aff3) × (Fin K → Aff3)
  | 0, _, s0, s1 => ([], s0, s1)
  | fuel + 1, valid1, s0, s1 =>
      match firstActive valid1 with
      | none => ([], s0, s1)
      | some l0 =>
          let j := itk l0
          let valid2 : Fin K → Bool := fun l => valid1 l && decide (itk l = j)
          let valid1n : Fin K → Bool := fun l => valid1 l && !(valid2 l)
          let s0n : Fin K → Aff3 := fun l => if valid2 l then l2w (j + 0) else s0 l
          let s1n : Fin K → Aff3 := fun l => if valid2 l then l2w (j + 1) else s1 l
          let rest := partitionLoopF l2w itk fuel valid1n s0n s1n
          ((j, valid2) :: rest.1, rest.2)

/-- Batched world-to-local for NONLINEAR mode
(Instance::getWorld2LocalSlerp): compute segment indices and fractions per
lane, and either interpolate once when all active lanes share the segment of
the first active lane, or run the divergence partition loop.  The source
asserts any(valid); the none branch is unreachable under that precondition. -/
def getWorld2LocalSlerpK {K : ℕ} (inst : InstanceModel) (valid : Fin K → Bool)
    (t : Fin K → ℚ) : Fin K → Aff3 :=
  let ftime : Fin K → ℚ := fun l => timeSegmentFrac inst (t l)
  let itk : Fin K → ℤ := fun l => timeSegment inst (t l)
  match firstActive valid with
  | none => fun _ => inst.rcpA idAff3
  | some idx =>
      let itime := itk idx
      if allLanes valid (fun l => decide (itk l = itime)) then
        fun l => inst.rcpA (inst.slerpA (inst.local2world (itime + 0))
          (inst.local2world (itime + 1)) (ftime l))
      else
        let r := partitionLoopF inst.local2world itk K valid
          (fun _ => idAff3) (fun _ => idAff3)
        fun l => inst.rcpA (inst.slerpA (r.2.1 l) (r.2.2 l) (ftime l))

/-- Batched world-to-local for LINEAR mode (Instance::getWorld2LocalLerp). -/
def getWorld2LocalLerpK {K : ℕ} (inst : InstanceModel) (valid : Fin K → Bool)
    (t : Fin K → ℚ) : Fin K → Aff3 :=
  let ftime : Fin K → ℚ := fun l => timeSegmentFrac inst (t l)
  let itk : Fin K → ℤ := fun l => timeSegment inst (t l)
  match firstActive valid with
  | none => fun _ => inst.rcpA idAff3
  | some idx =>
      let itime := itk idx
      if allLanes valid (fun l => decide (itk l = itime)) then
        fun l => inst.rcpA (lerpAff (inst.local2world (itime + 0))
          (inst.local2world (itime + 1)) (ftime l))
      else
        let r := partitionLoopF inst.local2world itk K valid
          (fun _ => idAff3) (fun _ => idAff3)
        fun l => inst.rcpA (lerpAff (r.2.1 l) (r.2.2 l) (ftime l))

/-- Batched world-to-local dispatch on the interpolation mode
(Instance::getWorld2Local(valid, t)). -/
def getWorld2LocalK {K : ℕ} (inst : InstanceModel) (valid : Fin K → Bool)
    (t : Fin K → ℚ) : Fin K → Aff3 :=
  match inst.interpolation with
  | TransformationInterpolation.NONLINEAR => getWorld2LocalSlerpK inst valid t
  | TransformationInterpolation.LINEAR => getWorld2LocalLerpK inst valid t

/-- Unfolding of one partition step when the mask still has an active lane. -/
theorem partitionLoopF_step {K : ℕ} (l2w : ℤ → Aff3) (itk : Fin K → ℤ)
    (fuel : ℕ) (valid1 : Fin K → Bool) (s0 s1 : Fin K → Aff3) (l0 : Fin K)
    (hfa : firstActive valid1 = some l0) :
    partitionLoopF l2w itk (fuel + 1) valid1 s0 s1 =
      ((itk l0, fun l => valid1 l && decide (itk l = itk l0)) ::
         (partitionLoopF l2w itk fuel
           (fun l => valid1 l && !(valid1 l && decide (itk l = itk l0)))
           (fun l => if valid1 l && decide (itk l = itk l0) then l2w (itk l0 + 0) else s0 l)
           (fun l => if valid1 l && decide (itk l = itk l0) then l2w (itk l0 + 1) else s1 l)).1,
       (partitionLoopF l2w itk fuel
           (fun l => valid1 l && !(valid1 l && decide (itk l = itk l0)))
           (fun l => if valid1 l && decide (itk l = itk l0) then l2w (itk l0 + 0) else s0 l)
           (fun l => if valid1 l && decide (itk l = itk l0) then l2w (itk l0 + 1) else s1 l)).2) := by
  conv_lhs => rw [partitionLoopF]
  rw [hfa]

/-- Unfolding of the partition loop when the mask is empty. -/
theorem partitionLoopF_none {K : ℕ} (l2w : ℤ → Aff3) (itk : Fin K → ℤ)
    (fuel : ℕ) (valid1 : Fin K → Bool) (s0 s1 : Fin K → Aff3)
    (hfa : firstActive valid1 = none) :
    partitionLoopF l2w itk (fuel + 1) valid1 s0 s1 = ([], s0, s1) := by
  conv_lhs => rw [partitionLoopF]
  rw [hfa]

/-- Helper: an active lane forces firstActive to find some lane. -/
theorem firstActive_isSome {K : ℕ} (v : Fin K → Bool) (l : Fin K)
    (hl : v l = true) : ∃ l0, firstActive v = some l0 := by
  have : (List.finRange K).find? v |>.isSome := by
    rw [List.find?_isSome]
    exact ⟨l, List.mem_finRange l, hl⟩
  rcases Option.isSome_iff_exists.mp this with ⟨l0, h0⟩
  exact ⟨l0, h0⟩

/-- Helper: the lane found by firstActive is active. -/
theorem firstActive_active {K : ℕ} (v : Fin K → Bool) (l0 : Fin K)
    (h : firstActive v = some l0) : v l0 = true :=
  List.find?_some h

/-- Helper: when allLanes valid p holds, p holds on every active lane. -/
theorem allLanes_spec {K : ℕ} (valid p : Fin K → Bool)
    (h : allLanes valid p = true) (l : Fin K) (hl : valid l = true) :
    p l = true := by
  have := List.all_eq_true.mp h l (List.mem_finRange l)
  rcases Bool.or_eq_true_iff.mp this with hnv | hp
  · rw [Bool.not_eq_true'] at hnv
    rw [hl] at hnv
    cases hnv
  · exact hp

/-- Helper: the number of active lanes is at most the lane count. -/
theorem countTrue_le {K : ℕ} (v : Fin K → Bool) : countTrue v ≤ K := by
  unfold countTrue
  calc (Finset.univ.filter (fun l => v l = true)).card
      ≤ (Finset.univ : Finset (Fin K)).card := Finset.card_filter_le _ _
    _ = K := by simp

/-- Helper: an active lane makes the active count positive. -/
theorem countTrue_pos {K : ℕ} (v : Fin K → Bool) (l : Fin K)
    (hl : v l = true) : 0 < countTrue v := by
  unfold countTrue
  refine Finset.card_pos.mpr ⟨l, ?_⟩
  simp [hl]

/-- Helper: removing an active lane strictly shrinks the active count. -/
theorem countTrue_lt {K : ℕ} (v w : Fin K → Bool)
    (hsub : ∀ l, w l = true → v l = true) (l0 : Fin K)
    (hv : v l0 = true) (hw : w l0 = false) : countTrue w < countTrue v := by
  unfold countTrue
  apply Finset.card_lt_card
  constructor
  · intro l hlmem
    simp only [Finset.mem_filter, Finset.mem_univ, true_and] at hlmem ⊢
    exact hsub l hlmem
  · intro hcon
    have := hcon (Finset.mem_filter.mpr ⟨Finset.mem_univ l0, hv⟩)
    simp only [Finset.mem_filter, Finset.mem_univ, true_and] at this
    rw [hw] at this
    cases this

/-- Helper: the partition loop never touches the space entries of lanes
outside the current mask. -/
theorem partitionLoopF_preserve {K : ℕ} (l2w : ℤ → Aff3) (itk : Fin K → ℤ) :
    ∀ (fuel : ℕ) (valid1 : Fin K → Bool) (s0 s1 : Fin K → Aff3) (l : Fin K),
      valid1 l = false →
      (partitionLoopF l2w itk fuel valid1 s0 s1).2.1 l = s0 l
      ∧ (partitionLoopF l2w itk fuel valid1 s0 s1).2.2 l = s1 l := by
  intro fuel
  induction fuel with
  | zero => intro valid1 s0 s1 l _; exact ⟨rfl, rfl⟩
  | succ m ih =>
      intro valid1 s0 s1 l hl
      rcases hfa : firstActive valid1 with _ | l0
      · rw [partitionLoopF_none l2w itk m valid1 s0 s1 hfa]
        exact ⟨rfl, rfl⟩
      · rw [partitionLoopF_step l2w itk m valid1 s0 s1 l0 hfa]
        have hv2 : (valid1 l && decide (itk l = itk l0)) = false := by
          rw [hl]; rfl
        have hv1n : (valid1 l && !(valid1 l && decide (itk l = itk l0))) = false := by
          rw [hl]; rfl
        rcases ih (fun l => valid1 l && !(valid1 l && decide (itk l = itk l0)))
          (fun l => if valid1 l && decide (itk l = itk l0) then l2w (itk l0 + 0) else s0 l)
          (fun l => if valid1 l && decide (itk l = itk l0) then l2w (itk l0 + 1) else s1 l)
          l hv1n with ⟨h0, h1⟩
        constructor
        · rw [show (((itk l0, fun l => valid1 l && decide (itk l = itk l0)) ::
              (partitionLoopF l2w itk m
                (fun l => valid1 l && !(valid1 l && decide (itk l = itk l0)))
                (fun l => if valid1 l && decide (itk l = itk l0) then l2w (itk l0 + 0) else s0 l)
                (fun l => if valid1 l && decide (itk l = itk l0) then l2w (itk l0 + 1) else s1 l)).1,
              (partitionLoopF l2w itk m
                (fun l => valid1 l && !(valid1 l && decide (itk l = itk l0)))
                (fun l => if valid1 l && decide (itk l = itk l0) then l2w (itk l0 + 0) else s0 l)
                (fun l => if valid1 l && decide (itk l = itk l0) then l2w (itk l0 + 1) else s1 l)).2).2.1 l)
            = (if valid1 l && decide (itk l = itk l0) then l2w (itk l0 + 0) else s0 l) from h0]
          simp [hv2]
        · rw [show (((itk l0, fun l => valid1 l && decide (itk l = itk l0)) ::
              (partitionLoopF l2w itk m
                (fun l => valid1 l && !(valid1 l && decide (itk l = itk l0)))
                (fun l => if valid1 l && decide (itk l = itk l0) then l2w (itk l0 + 0) else s0 l)
                (fun l => if valid1 l && decide (itk l = itk l0) then l2w (itk l0 + 1) else s1 l)).1,
              (partitionLoopF l2w itk m
                (fun l => valid1 l && !(valid1 l && decide (itk l = itk l0)))
                (fun l => if valid1 l && decide (itk l = itk l0) then l2w (itk l0 + 0) else s0 l)
                (fun l => if valid1 l && decide (itk l = itk l0) then l2w (itk l0 + 1) else s1 l)).2).2.2 l)
            = (if valid1 l && decide (itk l = itk l0) then l2w (itk l0 + 1) else s1 l) from h1]
          simp [hv2]

/-- Helper: with enough fuel, the partition loop assigns every active lane
the two neighbouring key transforms of its own segment index. -/
theorem partitionLoopF_spaces {K : ℕ} (l2w : ℤ → Aff3) (itk : Fin K → ℤ) :
    ∀ (fuel : ℕ) (valid1 : Fin K → Bool) (s0 s1 : Fin K → Aff3) (l : Fin K),
      countTrue valid1 ≤ fuel → valid1 l = true →
      (partitionLoopF l2w itk fuel valid1 s0 s1).2.1 l = l2w (itk l + 0)
      ∧ (partitionLoopF l2w itk fuel valid1 s0 s1).2.2 l = l2w (itk l + 1) := by
  intro fuel
  induction fuel with
  | zero =>
      intro valid1 s0 s1 l hfuel hl
      exact absurd (countTrue_pos valid1 l hl) (by omega)
  | succ m ih =>
      intro valid1 s0 s1 l hfuel hl
      rcases firstActive_isSome valid1 l hl with ⟨l0, hfa⟩
      rw [partitionLoopF_step l2w itk m valid1 s0 s1 l0 hfa]
      by_cases hsame : itk l = itk l0
      · have hv2 : (valid1 l && decide (itk l = itk l0)) = true := by
          rw [hl, hsame]; simp
        have hv1n : (valid1 l && !(valid1 l && decide (itk l = itk l0))) = false := by
          rw [hv2]
          simp
        have := partitionLoopF_preserve l2w itk m
          (fun l => valid1 l && !(valid1 l && decide (itk l = itk l0)))
          (fun l => if valid1 l && decide (itk l = itk l0) then l2w (itk l0 + 0) else s0 l)
          (fun l => if valid1 l && decide (itk l = itk l0) then l2w (itk l0 + 1) else s1 l)
          l hv1n
        rcases this with ⟨h0, h1⟩
        constructor
        · rw [show (((itk l0, fun l => valid1 l && decide (itk l = itk l0)) ::
              (partitionLoopF l2w itk m
                (fun l => valid1 l && !(valid1 l && decide (itk l = itk l0)))
                (fun l => if valid1 l && decide (itk l = itk l0) then l2w (itk l0 + 0) else s0 l)
                (fun l => if valid1 l && decide (itk l = itk l0) then l2w (itk l0 + 1) else s1 l)).1,
              (partitionLoopF l2w itk m
                (fun l => valid1 l && !(valid1 l && decide (itk l = itk l0)))
                (fun l => if valid1 l && decide (itk l = itk l0) then l2w (itk l0 + 0) else s0 l)
                (fun l => if valid1 l && decide (itk l = itk l0) then l2w (itk l0 + 1) else s1 l)).2).2.1 l)
            = (if valid1 l && decide (itk l = itk l0) then l2w (itk l0 + 0) else s0 l) from h0]
          simp [hl, hsame]
        · rw [show (((itk l0, fun l => valid1 l && decide (itk l = itk l0)) ::
              (partitionLoopF l2w itk m
                (fun l => valid1 l && !(valid1 l && decide (itk l = itk l0)))
                (fun l => if valid1 l && decide (itk l = itk l0) then l2w (itk l0 + 0) else s0 l)
                (fun l => if valid1 l && decide (itk l = itk l0) then l2w (itk l0 + 1) else s1 l)).1,
              (partitionLoopF l2w itk m
                (fun l => valid1 l && !(valid1 l && decide (itk l = itk l0)))
                (fun l => if valid1 l && decide (itk l = itk l0) then l2w (itk l0 + 0) else s0 l)
                (fun l => if valid1 l && decide (itk l = itk l0) then l2w (itk l0 + 1) else s1 l)).2).2.2 l)
            = (if valid1 l && decide (itk l = itk l0) then l2w (itk l0 + 1) else s1 l) from h1]
          simp [hl, hsame]
      · have hv2 : (valid1 l && decide (itk l = itk l0)) = false := by
          rw [hl]
          simp [hsame]
        have hv1n : (valid1 l && !(valid1 l && decide (itk l = itk l0))) = true := by
          rw [hv2]
          simp [hl]
        have hfuel2 : countTrue (fun l => valid1 l && !(valid1 l && decide (itk l = itk l0))) ≤ m := by
          have hlt : countTrue (fun l => valid1 l && !(valid1 l && decide (itk l = itk l0)))
              < countTrue valid1 := by
            apply countTrue_lt _ _ ?_ l0 (firstActive_active valid1 l0 hfa)
            · have hl0 : valid1 l0 = true := firstActive_active valid1 l0 hfa
              rw [hl0]
              simp
            · intro l hl
              exact Bool.and_elim_left hl
          omega
        have hrec := ih (fun l => valid1 l && !(valid1 l && decide (itk l = itk l0)))
          (fun l => if valid1 l && decide (itk l = itk l0) then l2w (itk l0 + 0) else s0 l)
          (fun l => if valid1 l && decide (itk l = itk l0) then l2w (itk l0 + 1) else s1 l)
          l hfuel2 hv1n
        exact hrec

/-- Helper: every group mask produced by the partition loop selects only
lanes of the entry mask. -/
theorem partitionLoopF_groups_subset {K : ℕ} (l2w : ℤ → Aff3) (itk : Fin K → ℤ) :
    ∀ (fuel : ℕ) (valid1 : Fin K → Bool) (s0 s1 : Fin K → Aff3)
      (g : ℤ × (Fin K → Bool)),
      g ∈ (partitionLoopF l2w itk fuel valid1 s0 s1).1 →
      ∀ l : Fin K, g.2 l = true → valid1 l = true := by
  intro fuel
  induction fuel with
  | zero => intro valid1 s0 s1 g hg; cases hg
  | succ m ih =>
      intro valid1 s0 s1 g hg l hgl
      rcases hfa : firstActive valid1 with _ | l0
      · rw [partitionLoopF_none l2w itk m valid1 s0 s1 hfa] at hg
        cases hg
      · rw [partitionLoopF_step l2w itk m valid1 s0 s1 l0 hfa] at hg
        rcases List.mem_cons.mp hg with hhead | htail
        · subst hhead
          exact Bool.and_elim_left hgl
        · have := ih (fun l => valid1 l && !(valid1 l && decide (itk l = itk l0)))
            (fun l => if valid1 l && decide (itk l = itk l0) then l2w (itk l0 + 0) else s0 l)
            (fun l => if valid1 l && decide (itk l = itk l0) then l2w (itk l0 + 1) else s1 l)
            g htail l hgl
          exact Bool.and_elim_left this

/-- Helper: a lane outside the entry mask is selected by no group. -/
theorem partitionLoopF_count_zero {K : ℕ} (l2w : ℤ → Aff3) (itk : Fin K → ℤ)
    (fuel : ℕ) (valid1 : Fin K → Bool) (s0 s1 : Fin K → Aff3) (l : Fin K)
    (hl : valid1 l = false) :
    (partitionLoopF l2w itk fuel valid1 s0 s1).1.countP (fun g => g.2 l) = 0 := by
  rw [List.countP_eq_zero]
  intro g hg
  simp only [Bool.not_eq_true]
  rcases hcase : g.2 l with _ | _
  · rfl
  · have := partitionLoopF_groups_subset l2w itk fuel valid1 s0 s1 g hg l hcase
    rw [this] at hl
    cases hl

/-- Helper: with enough fuel every lane of the entry mask is selected by
exactly one group, and lanes outside it by none. -/
theorem partitionLoopF_count {K : ℕ} (l2w : ℤ → Aff3) (itk : Fin K → ℤ) :
    ∀ (fuel : ℕ) (valid1 : Fin K → Bool) (s0 s1 : Fin K → Aff3) (l : Fin K),
      countTrue valid1 ≤ fuel →
      (partitionLoopF l2w itk fuel valid1 s0 s1).1.countP (fun g => g.2 l)
        = if valid1 l = true then 1 else 0 := by
  intro fuel
  induction fuel with
  | zero =>
      intro valid1 s0 s1 l hfuel
      rcases hcase : valid1 l with _ | _
      · simp [partitionLoopF]
      · exact absurd (countTrue_pos valid1 l hcase) (by omega)
  | succ m ih =>
      intro valid1 s0 s1 l hfuel
      rcases hfa : firstActive valid1 with _ | l0
      · rw [partitionLoopF_none l2w itk m valid1 s0 s1 hfa]
        rcases hcase : valid1 l with _ | _
        · rfl
        · rcases firstActive_isSome valid1 l hcase with ⟨l1, hfa1⟩
          rw [hfa] at hfa1
          cases hfa1
      · rw [partitionLoopF_step l2w itk m valid1 s0 s1 l0 hfa]
        rw [List.countP_cons]
        rcases hcase : valid1 l with _ | _
        · have hv2 : (valid1 l && decide (itk l = itk l0)) = false := by
            rw [hcase]; rfl
          have hv1n : (valid1 l && !(valid1 l && decide (itk l = itk l0))) = false := by
            rw [hv2]; simp [hcase]
          rw [partitionLoopF_count_zero l2w itk m _ _ _ l hv1n]
          simp [hv2]
        · by_cases hsame : itk l = itk l0
          · have hv2 : (valid1 l && decide (itk l = itk l0)) = true := by
              rw [hcase, hsame]; simp
            have hv1n : (valid1 l && !(valid1 l && decide (itk l = itk l0))) = false := by
              rw [hv2]; simp
            rw [partitionLoopF_count_zero l2w itk m _ _ _ l hv1n]
            simp [hv2]
          · have hv2 : (valid1 l && decide (itk l = itk l0)) = false := by
              rw [hcase]; simp [hsame]
            have hv1n : (valid1 l && !(valid1 l && decide (itk l = itk l0))) = true := by
              rw [hv2]; simp [hcase]
            have hfuel2 : countTrue (fun l => valid1 l && !(valid1 l && decide (itk l = itk l0))) ≤ m := by
              have hlt : countTrue (fun l => valid1 l && !(valid1 l && decide (itk l = itk l0)))
                  < countTrue valid1 := by
                apply countTrue_lt _ _ ?_ l0 (firstActive_active valid1 l0 hfa)
                · have hl0 : valid1 l0 = true := firstActive_active valid1 l0 hfa
                  rw [hl0]
                  simp
                · intro l hl
                  exact Bool.and_elim_left hl
              omega
            rw [ih _ _ _ l hfuel2]
            simp [hv1n, hv2, hcase, hsame]

/-- Helper: the partition loop runs at most fuel iterations, so the group
list has at most fuel entries. -/
theorem partitionLoopF_length {K : ℕ} (l2w : ℤ → Aff3) (itk : Fin K → ℤ) :
    ∀ (fuel : ℕ) (valid1 : Fin K → Bool) (s0 s1 : Fin K → Aff3),
      (partitionLoopF l2w itk fuel valid1 s0 s1).1.length ≤ fuel := by
  intro fuel
  induction fuel with
  | zero => intro valid1 s0 s1; exact le_refl _
  | succ m ih =>
      intro valid1 s0 s1
      rcases hfa : firstActive valid1 with _ | l0
      · rw [partitionLoopF_none l2w itk m valid1 s0 s1 hfa]
        simp
      · rw [partitionLoopF_step l2w itk m valid1 s0 s1 l0 hfa]
        simp only [List.length_cons]
        have := ih (fun l => valid1 l && !(valid1 l && decide (itk l = itk l0)))
          (fun l => if valid1 l && decide (itk l = itk l0) then l2w (itk l0 + 0) else s0 l)
          (fun l => if valid1 l && decide (itk l = itk l0) then l2w (itk l0 + 1) else s1 l)
        omega

/-- C6: for every lane width K and non-empty active mask, the divergence
partition loop of getWorld2LocalSlerp and getWorld2LocalLerp (with the fuel K
its callers pass) terminates after at most K iterations, and the produced
groups are complete and non-overlapping: every initially active lane is
selected by exactly one group mask and every inactive lane by none. -/
theorem claim6_partition_loop_terminates_and_partitions {K : ℕ}
    (l2w : ℤ → Aff3) (itk : Fin K → ℤ) (valid : Fin K → Bool)
    (s0 s1 : Fin K → Aff3) (hany : ∃ l, valid l = true) :
    (partitionLoopF l2w itk K valid s0 s1).1.length ≤ K
    ∧ ∀ l : Fin K,
        (partitionLoopF l2w itk K valid s0 s1).1.countP (fun g => g.2 l)
          = if valid l = true then 1 else 0 := by
  rcases hany with ⟨l1, hl1⟩
  refine ⟨partitionLoopF_length l2w itk K valid s0 s1, fun l => ?_⟩
  exact partitionLoopF_count l2w itk K valid s0 s1 l (countTrue_le valid)

/-- C2: for every lane width, every mask, every vector of lane times and both
interpolation modes, the batched getWorld2Local returns on each active lane
exactly the transform the scalar getWorld2Local returns for that lane time,
through the fast path and through the partition path alike. -/
theorem claim2_batched_world2local_matches_scalar {K : ℕ} (inst : InstanceModel)
    (valid : Fin K → Bool) (t : Fin K → ℚ) (l : Fin K) (hl : valid l = true) :
    getWorld2LocalK inst valid t l = getWorld2Local1 inst (t l) := by
  rcases firstActive_isSome valid l hl with ⟨idx, hfa⟩
  have hcount : countTrue valid ≤ K := countTrue_le valid
  cases hmode : inst.interpolation with
  | NONLINEAR =>
      simp only [getWorld2LocalK, hmode, getWorld2LocalSlerpK, hfa,
        getWorld2Local1, getLocal2World, hmode]
      by_cases hall : allLanes valid
          (fun l => decide (timeSegment inst (t l) = timeSegment inst (t idx))) = true
      · rw [if_pos hall]
        have heq : timeSegment inst (t l) = timeSegment inst (t idx) :=
          of_decide_eq_true (allLanes_spec valid _ hall l hl)
        rw [heq]
      · rw [if_neg hall]
        rcases partitionLoopF_spaces inst.local2world
          (fun l => timeSegment inst (t l)) K valid
          (fun _ => idAff3) (fun _ => idAff3) l hcount hl with ⟨h0, h1⟩
        rw [h0, h1]
  | LINEAR =>
      simp only [getWorld2LocalK, hmode, getWorld2LocalLerpK, hfa,
        getWorld2Local1, getLocal2World, hmode]
      by_cases hall : allLanes valid
          (fun l => decide (timeSegment inst (t l) = timeSegment inst (t idx))) = true
      · rw [if_pos hall]
        have heq : timeSegment inst (t l) = timeSegment inst (t idx) :=
          of_decide_eq_true (allLanes_spec valid _ hall l hl)
        rw [heq]
      · rw [if_neg hall]
        rcases partitionLoopF_spaces inst.local2world
          (fun l => timeSegment inst (t l)) K valid
          (fun _ => idAff3) (fun _ => idAff3) l hcount hl with ⟨h0, h1⟩
        rw [h0, h1]

/-- Concrete unit box for the witness instance. -/
def unitBoxQ : BBox3 ℚ := ⟨⟨-1, -1, -1⟩, ⟨1, 1, 1⟩⟩

/-- Concrete two-time-step instance in LINEAR mode: identity transforms, unit
object bounds, a single time segment over the unit time range, with the
out-of-excerpt slerp instantiated at the affine lerp and rcp at the
identity. -/
def instEx : InstanceModel :=
  ⟨fun _ => idAff3, TransformationInterpolation.LINEAR, 0, 1, 1,
   fun _ => unitBoxQ, unitBoxQ, lerpAff, fun a => a⟩

/-- Witness for C2 on a concrete four-lane query with lane times in different
segments of a concrete two-segment instance. -/
def instEx2 : InstanceModel :=
  ⟨fun _ => idAff3, TransformationInterpolation.NONLINEAR, 0, 1, 2,
   fun _ => unitBoxQ, unitBoxQ, lerpAff, fun a => a⟩

/-- Witness for C2: on a concrete four-lane query over instEx2 whose lane
times fall into two distinct segments, lane 0 of the batched result equals
the scalar result for that lane time. -/
theorem claim2_witness :
    getWorld2LocalK instEx2 (fun _ => true)
        (fun l => if l = (0 : Fin 4) then (1 : ℚ)/4 else 3/4) (0 : Fin 4)
      = getWorld2Local1 instEx2
          ((fun l => if l = (0 : Fin 4) then (1 : ℚ)/4 else 3/4) (0 : Fin 4)) :=
  claim2_batched_world2local_matches_scalar instEx2 (fun _ => true)
    (fun l => if l = (0 : Fin 4) then (1 : ℚ)/4 else 3/4) (0 : Fin 4) rfl

/-- Witness for C5: the characterization instantiated on the concrete
instance and the key range 0..1. -/
theorem claim5_witness :
    valid instEx ⟨0, 1⟩ = true
      ↔ ∀ itime : ℕ, 0 ≤ itime → itime ≤ 1
          → isvalidB (boundsAt instEx itime) = true := by
  have h := claim5_valid_iff_all_keys_valid instEx ⟨0, 1⟩ (by decide)
  exact h

/-- Witness for C6: the termination and partition property instantiated on a
concrete four-lane mask and segment vector with two distinct segments. -/
theorem claim6_witness :
    (partitionLoopF (fun _ => idAff3) (fun l : Fin 4 => ((l : ℕ) : ℤ) / 2) 4
        (fun _ : Fin 4 => true) (fun _ : Fin 4 => idAff3)
        (fun _ : Fin 4 => idAff3)).1.length ≤ 4
    ∧ ∀ l : Fin 4,
        (partitionLoopF (fun _ => idAff3) (fun l : Fin 4 => ((l : ℕ) : ℤ) / 2) 4
            (fun _ : Fin 4 => true) (fun _ : Fin 4 => idAff3)
            (fun _ : Fin 4 => idAff3)).1.countP
          (fun g => g.2 l) = if (fun _ : Fin 4 => true) l = true then 1 else 0 :=
  claim6_partition_loop_terminates_and_partitions (fun _ => idAff3)
    (fun l : Fin 4 => ((l : ℕ) : ℤ) / 2) (fun _ : Fin 4 => true)
    (fun _ : Fin 4 => idAff3) (fun _ : Fin 4 => idAff3) ⟨0, rfl⟩

/-- Witness for C9: the valid case of the single-time producer on the
concrete instance, with the validity hypothesis evaluated. -/
theorem claim9_witness :
    (createPrimRefArray instEx (fun _ => none) 3 7).2 3
        = some ⟨boundsZero instEx, 7, 0⟩
      ∧ (∀ j : ℕ, j ≠ 3 → (createPrimRefArray instEx (fun _ => none) 3 7).2 j
          = (fun _ : ℕ => (none : Option PrimRef)) j)
      ∧ (createPrimRefArray instEx (fun _ => none) 3 7).1
          = ⟨1, some (boundsZero instEx),
             some (pointBox (center2 (boundsZero instEx)))⟩ :=
  (claim9_primref_producers instEx ⟨instEx, 1, fun _ => ⟨0, 1⟩,
      fun _ => ⟨unitBoxQ, unitBoxQ⟩⟩ (fun _ => none) (fun _ => none)
      (fun _ => none) 3 0 7 (0, 1)).2.1
    (by norm_num [isvalidB, boundsZero, instEx, unitBoxQ, xfmBounds, boxCorners,
      xfmPoint, linApply, idAff3, idLin3, vmin3, vmax3, V4.vmadd, V4.add,
      V4.smul, V4.zero, xyz, fltLarge, min_def, max_def, abs])

/-- Helper for C8: derivative of the first basis weight. -/
theorem evalX_hasDeriv (u : ℝ) :
    HasDerivAt (fun v : ℝ => (BezierBasis.eval v).x) ((BezierBasis.derivative u).x) u := by
  have h1 : HasDerivAt (fun v : ℝ => 1 - v) (-1) u := (hasDerivAt_id u).const_sub 1
  have h := (h1.mul h1).mul h1
  have heq : (-1 * (1 - u) + (1 - u) * -1) * (1 - u) + (1 - u) * (1 - u) * -1
      = (BezierBasis.derivative u).x := by
    simp [BezierBasis.derivative, V4.smul, madd, msub]
    ring
  rw [heq] at h
  exact h

/-- Helper for C8: derivative of the second basis weight. -/
theorem evalY_hasDeriv(u : ℝ) :
    HasDerivAt (fun v : ℝ => (BezierBasis.eval v).y) ((BezierBasis.derivative u).y) u := by
  have h1 : HasDerivAt (fun v : ℝ => 1 - v) (-1) u := (hasDerivAt_id u).const_sub 1
  have h3u : HasDerivAt (fun v : ℝ => 3 * v) 3 u := by
    simpa using (hasDerivAt_id u).const_mul (3 : ℝ)
  have h := h3u.mul (h1.mul h1)
  have heq : 3 * ((1 - u) * (1 - u)) + 3 * u * (-1 * (1 - u) + (1 - u) * -1)
      = (BezierBasis.derivative u).y := by
    simp [BezierBasis.derivative, V4.smul, madd, msub]
    ring
  rw [heq] at h
  exact h

/-- Helper for C8: derivative of the third basis weight. -/
theorem evalZ_hasDeriv (u : ℝ) :
    HasDerivAt (fun v : ℝ => (BezierBasis.eval v).z) ((BezierBasis.derivative u).z) u := by
  have h1 : HasDerivAt (fun v : ℝ => 1 - v) (-1) u := (hasDerivAt_id u).const_sub 1
  have hvv : HasDerivAt (fun v : ℝ => v * v) (1 * u + u * 1) u :=
    (hasDerivAt_id u).mul (hasDerivAt_id u)
  have h3vv : HasDerivAt (fun v : ℝ => 3 * (v * v)) (3 * (1 * u + u * 1)) u :=
    hvv.const_mul 3
  have h := h3vv.mul h1
  have heq : 3 * (1 * u + u * 1) * (1 - u) + 3 * (u * u) * -1
      = (BezierBasis.derivative u).z := by
    simp [BezierBasis.derivative, V4.smul, madd, msub]
    ring
  rw [heq] at h
  exact h

/-- Helper for C8: derivative of the fourth basis weight. -/
theorem evalW_hasDeriv(u : ℝ) :
    HasDerivAt (fun v : ℝ => (BezierBasis.eval v).w) ((BezierBasis.derivative u).w) u := by
  have hvv : HasDerivAt (fun v : ℝ => v * v) (1 * u + u * 1) u :=
    (hasDerivAt_id u).mul (hasDerivAt_id u)
  have h : HasDerivAt (fun v : ℝ => v * v * v) ((1 * u + u * 1) * u + u * u * 1) u :=
    hvv.mul (hasDerivAt_id u)
  have heq : (1 * u + u * 1) * u + u * u * 1 = (BezierBasis.derivative u).w := by
    simp [BezierBasis.derivative, V4.smul, madd, msub]
    ring
  rw [heq] at h
  exact h

/-- Helper for C8: second derivative of the first basis weight. -/
theorem derivX_hasDeriv(u : ℝ) :
    HasDerivAt (fun v : ℝ => (BezierBasis.derivative v).x) ((BezierBasis.derivative2 u).x) u := by
  have h1 : HasDerivAt (fun v : ℝ => 1 - v) (-1) u := (hasDerivAt_id u).const_sub 1
  have h := ((h1.mul h1).neg).const_mul (3 : ℝ)
  have heq : 3 * -(-1 * (1 - u) + (1 - u) * -1) = (BezierBasis.derivative2 u).x := by
    simp [BezierBasis.derivative2, V4.smul, madd, msub]
    ring
  rw [heq] at h
  exact h

/-- Helper for C8: second derivative of the second basis weight. -/
theorem derivY_hasDeriv(u : ℝ) :
    HasDerivAt (fun v : ℝ => (BezierBasis.derivative v).y) ((BezierBasis.derivative2 u).y) u := by
  have h1 : HasDerivAt (fun v : ℝ => 1 - v) (-1) u := (hasDerivAt_id u).const_sub 1
  have hprod : HasDerivAt (fun v : ℝ => (1 - v) * v) (-1 * u + (1 - u) * 1) u :=
    h1.mul (hasDerivAt_id u)
  have h := ((hprod.const_mul (-2 : ℝ)).add (h1.mul h1)).const_mul (3 : ℝ)
  have heq : 3 * (-2 * (-1 * u + (1 - u) * 1) + (-1 * (1 - u) + (1 - u) * -1))
      = (BezierBasis.derivative2 u).y := by
    simp [BezierBasis.derivative2, V4.smul, madd, msub]
    ring
  rw [heq] at h
  exact h

/-- Helper for C8: second derivative of the third basis weight. -/
theorem derivZ_hasDeriv(u : ℝ) :
    HasDerivAt (fun v : ℝ => (BezierBasis.derivative v).z) ((BezierBasis.derivative2 u).z) u := by
  have h1 : HasDerivAt (fun v : ℝ => 1 - v) (-1) u := (hasDerivAt_id u).const_sub 1
  have hprod : HasDerivAt (fun v : ℝ => (1 - v) * v) (-1 * u + (1 - u) * 1) u :=
    h1.mul (hasDerivAt_id u)
  have hvv : HasDerivAt (fun v : ℝ => v * v) (1 * u + u * 1) u :=
    (hasDerivAt_id u).mul (hasDerivAt_id u)
  have h := ((hprod.const_mul (2 : ℝ)).sub hvv).const_mul (3 : ℝ)
  have heq : 3 * (2 * (-1 * u + (1 - u) * 1) - (1 * u + u * 1))
      = (BezierBasis.derivative2 u).z := by
    simp [BezierBasis.derivative2, V4.smul, madd, msub]
    ring
  rw [heq] at h
  exact h

/-- Helper for C8: second derivative of the fourth basis weight. -/
theorem derivW_hasDeriv(u : ℝ) :
    HasDerivAt (fun v : ℝ => (BezierBasis.derivative v).w) ((BezierBasis.derivative2 u).w) u := by
  have hvv : HasDerivAt (fun v : ℝ => v * v) (1 * u + u * 1) u :=
    (hasDerivAt_id u).mul (hasDerivAt_id u)
  have h := hvv.const_mul (3 : ℝ)
  have heq : 3 * (1 * u + u * 1) = (BezierBasis.derivative2 u).w := by
    simp [BezierBasis.derivative2, V4.smul, madd, msub]
    ring
  rw [heq] at h
  exact h

/-- C8: over the reals, BezierBasis.derivative is the componentwise first
derivative of BezierBasis.eval with respect to the parameter, and
BezierBasis.derivative2 is the componentwise second derivative, with the
combinatorial constants 3 and 6 already included in the returned weights. -/
theorem claim8_derivatives_match_calculus (u : ℝ) :
    (deriv (fun v : ℝ => (BezierBasis.eval v).x) u = (BezierBasis.derivative u).x
      ∧ deriv (fun v : ℝ => (BezierBasis.eval v).y) u = (BezierBasis.derivative u).y
      ∧ deriv (fun v : ℝ => (BezierBasis.eval v).z) u = (BezierBasis.derivative u).z
      ∧ deriv (fun v : ℝ => (BezierBasis.eval v).w) u = (BezierBasis.derivative u).w)
    ∧ (deriv (deriv (fun v : ℝ => (BezierBasis.eval v).x)) u = (BezierBasis.derivative2 u).x
      ∧ deriv (deriv (fun v : ℝ => (BezierBasis.eval v).y)) u = (BezierBasis.derivative2 u).y
      ∧ deriv (deriv (fun v : ℝ => (BezierBasis.eval v).z)) u = (BezierBasis.derivative2 u).z
      ∧ deriv (deriv (fun v : ℝ => (BezierBasis.eval v).w)) u = (BezierBasis.derivative2 u).w) := by
  have hdx : deriv (fun v : ℝ => (BezierBasis.eval v).x) = fun v => (BezierBasis.derivative v).x :=
    funext (fun v => (evalX_hasDeriv v).deriv)
  have hdy : deriv (fun v : ℝ => (BezierBasis.eval v).y) = fun v => (BezierBasis.derivative v).y :=
    funext (fun v => (evalY_hasDeriv v).deriv)
  have hdz : deriv (fun v : ℝ => (BezierBasis.eval v).z) = fun v => (BezierBasis.derivative v).z :=
    funext (fun v => (evalZ_hasDeriv v).deriv)
  have hdw : deriv (fun v : ℝ => (BezierBasis.eval v).w) = fun v => (BezierBasis.derivative v).w :=
    funext (fun v => (evalW_hasDeriv v).deriv)
  refine ⟨⟨(evalX_hasDeriv u).deriv, (evalY_hasDeriv u).deriv,
           (evalZ_hasDeriv u).deriv, (evalW_hasDeriv u).deriv⟩, ?_, ?_, ?_, ?_⟩
  · rw [hdx]; exact (derivX_hasDeriv u).deriv
  · rw [hdy]; exact (derivY_hasDeriv u).deriv
  · rw [hdz]; exact (derivZ_hasDeriv u).deriv
  · rw [hdw]; exact (derivW_hasDeriv u).deriv

/-- C7: for every u in the unit interval the four Bernstein weights of
BezierBasis.eval sum to one, and at the endpoints eval 0 = (1,0,0,0) and
eval 1 = (0,0,0,1). -/
theorem claim7_bezier_basis_partition_of_unity {R : Type} [LinearOrderedField R]
    (u : R) (h0 : 0 ≤ u) (h1 : u ≤ 1) :
    ((BezierBasis.eval u).x + (BezierBasis.eval u).y + (BezierBasis.eval u).z
        + (BezierBasis.eval u).w = 1)
    ∧ BezierBasis.eval (0 : R) = ⟨1, 0, 0, 0⟩
    ∧ BezierBasis.eval (1 : R) = ⟨0, 0, 0, 1⟩ := by
  refine ⟨?_, ?_, ?_⟩
  · simp only [BezierBasis.eval]
    ring
  · simp only [BezierBasis.eval]
    ext <;> norm_num
  · simp only [BezierBasis.eval]
    ext <;> norm_num

/-- Witness for C7 at u = 1/2 over the rationals. -/
theorem claim7_witness :
    (BezierBasis.eval ((1 : ℚ)/2)).x + (BezierBasis.eval ((1 : ℚ)/2)).y
      + (BezierBasis.eval ((1 : ℚ)/2)).z + (BezierBasis.eval ((1 : ℚ)/2)).w = 1 :=
  (claim7_bezier_basis_partition_of_unity ((1 : ℚ)/2) (by norm_num) (by norm_num)).1

end EmbreeModel
